import Mathlib

/-!
Verification development for the Fyg compiler core (`src/`): a shallow
embedding of the AST (`ast.rs`), the scope tree (`scope.rs`), the
constraint collector (`constraints.rs`), the unifier (`analyze.rs`),
the module-processing skeleton (`compiler.rs`), the code emitter's Go
imports handling (`codegen.rs`) and the CLI driver logic (`main.rs`),
together with theorems settling the specification claims.

Rust `HashMap`s are modelled as association lists (`List (key × value)`);
the source only inserts fresh keys or updates values in place, so list
order is stable and lookup agrees with the map semantics.  Functions
whose Rust counterparts can recurse without bound (scope-chain walks,
`resolve_type`, `unify`, `process_module`, the constraint collector)
take an explicit fuel argument; `none` models both divergence and a
Rust panic, while `some` carries the value the Rust code produces.
-/

set_option maxHeartbeats 1000000

namespace Fyg

/-- `Identifier` from ast.rs: a lowercase value identifier. -/
structure Identifier where
  name : String
deriving DecidableEq

/-- `TypeIdentifier` from ast.rs: dotted uppercase segments. -/
structure TypeIdentifier where
  name : List String
deriving DecidableEq

/-- `BinaryOp` from ast.rs. -/
inductive BinaryOp where
  | add
  | subtract
  | multiply
  | divide
  | equal
  | notEqual
  | greaterThan
  | greaterOrEqual
  | lessThan
  | lessOrEqual
deriving DecidableEq

mutual

/-- `TypeExpr` from ast.rs (all variants). -/
inductive TypeExpr where
  | typeRef (id : TypeIdentifier)
  | record (members : List RecordTypeMemeber)
  | enumDec (dec : EnumDec)
  | inferenceRequired (id : Option TypeIdentifier)
  | dotCall (t : TypeExpr) (member : Identifier)
  | string
  | number
  | boolean
  | void
  | importRef (name : String) (modules : List Nat)
  | functionDefinition (typeIdentifier : TypeIdentifier) (parameters : List TypeExpr)
      (returnType : TypeExpr)
  | functionCall (args : List TypeExpr) (returnType : TypeExpr) (callee : TypeExpr)
  | externPackage (packageName : String) (members : List ExternMember)

/-- `RecordTypeMemeber` from ast.rs (source spelling kept). -/
inductive RecordTypeMemeber where
  | mk (identifier : Identifier) (typeExpr : TypeExpr)

/-- `EnumDec` from ast.rs. -/
inductive EnumDec where
  | mk (identifier : TypeIdentifier) (typeVars : List TypeIdentifier)
      (variants : List EnumVariant)

/-- `EnumVariant` from ast.rs. -/
inductive EnumVariant where
  | mk (name : TypeIdentifier) (params : List TypeExpr)

/-- `ExternMember` from ast.rs. -/
inductive ExternMember where
  | function (localName : Identifier) (externalName : String)
      (parameters : List FunctionParameter) (returnType : TypeExpr)
  | variableMember (localName : Identifier) (externalName : String) (valueType : TypeExpr)

/-- `FunctionParameter` from ast.rs. -/
inductive FunctionParameter where
  | mk (identifier : Identifier) (typeExpr : Option TypeExpr)

end

namespace TypeExpr

mutual

/-- Fueled structural equality on `TypeExpr` (Rust `PartialEq`); with fuel
exceeding the depth of the first argument it decides equality. -/
def beqF : Nat → TypeExpr → TypeExpr → Bool
  | 0, _, _ => false
  | f + 1, x, y =>
    match x, y with
    | .typeRef a, .typeRef b => a = b
    | .record as, .record bs => beqMembersF f as bs
    | .enumDec a, .enumDec b => beqEnumDecF f a b
    | .inferenceRequired a, .inferenceRequired b => a = b
    | .dotCall t1 m1, .dotCall t2 m2 => beqF f t1 t2 && m1 = m2
    | .string, .string => true
    | .number, .number => true
    | .boolean, .boolean => true
    | .void, .void => true
    | .importRef n1 l1, .importRef n2 l2 => n1 = n2 && l1 = l2
    | .functionDefinition i1 p1 r1, .functionDefinition i2 p2 r2 =>
        i1 = i2 && beqListF f p1 p2 && beqF f r1 r2
    | .functionCall a1 r1 c1, .functionCall a2 r2 c2 =>
        beqListF f a1 a2 && beqF f r1 r2 && beqF f c1 c2
    | .externPackage n1 m1, .externPackage n2 m2 => n1 = n2 && beqExternListF f m1 m2
    | _, _ => false

/-- Fueled equality on lists of `TypeExpr`. -/
def beqListF : Nat → List TypeExpr → List TypeExpr → Bool
  | 0, _, _ => false
  | _ + 1, [], [] => true
  | f + 1, a :: as, b :: bs => beqF f a b && beqListF f as bs
  | _ + 1, _, _ => false

/-- Fueled equality on record members. -/
def beqMemberF : Nat → RecordTypeMemeber → RecordTypeMemeber → Bool
  | 0, _, _ => false
  | f + 1, .mk i1 t1, .mk i2 t2 => i1 = i2 && beqF f t1 t2

/-- Fueled equality on lists of record members. -/
def beqMembersF : Nat → List RecordTypeMemeber → List RecordTypeMemeber → Bool
  | 0, _, _ => false
  | _ + 1, [], [] => true
  | f + 1, a :: as, b :: bs => beqMemberF f a b && beqMembersF f as bs
  | _ + 1, _, _ => false

/-- Fueled equality on enum declarations. -/
def beqEnumDecF : Nat → EnumDec → EnumDec → Bool
  | 0, _, _ => false
  | f + 1, .mk i1 v1 vs1, .mk i2 v2 vs2 => i1 = i2 && v1 = v2 && beqVariantsF f vs1 vs2

/-- Fueled equality on enum variants. -/
def beqVariantF : Nat → EnumVariant → EnumVariant → Bool
  | 0, _, _ => false
  | f + 1, .mk n1 p1, .mk n2 p2 => n1 = n2 && beqListF f p1 p2

/-- Fueled equality on lists of enum variants. -/
def beqVariantsF : Nat → List EnumVariant → List EnumVariant → Bool
  | 0, _, _ => false
  | _ + 1, [], [] => true
  | f + 1, a :: as, b :: bs => beqVariantF f a b && beqVariantsF f as bs
  | _ + 1, _, _ => false

/-- Fueled equality on extern members. -/
def beqExternF : Nat → ExternMember → ExternMember → Bool
  | 0, _, _ => false
  | f + 1, .function l1 e1 p1 r1, .function l2 e2 p2 r2 =>
      l1 = l2 && e1 = e2 && beqParamsF f p1 p2 && beqF f r1 r2
  | f + 1, .variableMember l1 e1 v1, .variableMember l2 e2 v2 =>
      l1 = l2 && e1 = e2 && beqF f v1 v2
  | _ + 1, _, _ => false

/-- Fueled equality on lists of extern members. -/
def beqExternListF : Nat → List ExternMember → List ExternMember → Bool
  | 0, _, _ => false
  | _ + 1, [], [] => true
  | f + 1, a :: as, b :: bs => beqExternF f a b && beqExternListF f as bs
  | _ + 1, _, _ => false

/-- Fueled equality on function parameters. -/
def beqParamF : Nat → FunctionParameter → FunctionParameter → Bool
  | 0, _, _ => false
  | f + 1, .mk i1 t1, .mk i2 t2 => i1 = i2 && beqOptF f t1 t2

/-- Fueled equality on lists of function parameters. -/
def beqParamsF : Nat → List FunctionParameter → List FunctionParameter → Bool
  | 0, _, _ => false
  | _ + 1, [], [] => true
  | f + 1, a :: as, b :: bs => beqParamF f a b && beqParamsF f as bs
  | _ + 1, _, _ => false

/-- Fueled equality on optional type expressions. -/
def beqOptF : Nat → Option TypeExpr → Option TypeExpr → Bool
  | 0, _, _ => false
  | _ + 1, none, none => true
  | f + 1, some a, some b => beqF f a b
  | _ + 1, _, _ => false

end


/-- With fuel exceeding the size of the left argument, every fueled
equality test in the `TypeExpr` family decides propositional equality. -/
theorem beqF_correct : ∀ f : Nat,
    (∀ x y : TypeExpr, sizeOf x < f → (beqF f x y = true ↔ x = y))
    ∧ (∀ xs ys : List TypeExpr, sizeOf xs < f → (beqListF f xs ys = true ↔ xs = ys))
    ∧ (∀ x y : RecordTypeMemeber, sizeOf x < f → (beqMemberF f x y = true ↔ x = y))
    ∧ (∀ xs ys : List RecordTypeMemeber, sizeOf xs < f →
        (beqMembersF f xs ys = true ↔ xs = ys))
    ∧ (∀ x y : EnumDec, sizeOf x < f → (beqEnumDecF f x y = true ↔ x = y))
    ∧ (∀ x y : EnumVariant, sizeOf x < f → (beqVariantF f x y = true ↔ x = y))
    ∧ (∀ xs ys : List EnumVariant, sizeOf xs < f → (beqVariantsF f xs ys = true ↔ xs = ys))
    ∧ (∀ x y : ExternMember, sizeOf x < f → (beqExternF f x y = true ↔ x = y))
    ∧ (∀ xs ys : List ExternMember, sizeOf xs < f →
        (beqExternListF f xs ys = true ↔ xs = ys))
    ∧ (∀ x y : FunctionParameter, sizeOf x < f → (beqParamF f x y = true ↔ x = y))
    ∧ (∀ xs ys : List FunctionParameter, sizeOf xs < f →
        (beqParamsF f xs ys = true ↔ xs = ys))
    ∧ (∀ x y : Option TypeExpr, sizeOf x < f → (beqOptF f x y = true ↔ x = y)) := by
  intro f
  induction f with
  | zero =>
    refine ⟨?_, ?_, ?_, ?_, ?_, ?_, ?_, ?_, ?_, ?_, ?_, ?_⟩ <;>
      exact fun x y h => absurd h (Nat.not_lt_zero _)
  | succ f ih =>
    obtain ⟨ihT, ihL, ihM, ihML, ihED, ihV, ihVL, ihE, ihEL, ihP, ihPL, ihO⟩ := ih
    refine ⟨?_, ?_, ?_, ?_, ?_, ?_, ?_, ?_, ?_, ?_, ?_, ?_⟩
    · intro x y h
      cases x <;> cases y <;> try (simp [beqF]; done)
      · next as bs =>
          simp only [record.sizeOf_spec] at h
          simp [beqF, ihML as bs (by omega)]
      · next a b =>
          simp only [enumDec.sizeOf_spec] at h
          simp [beqF, ihED a b (by omega)]
      · next t1 m1 t2 m2 =>
          simp only [dotCall.sizeOf_spec] at h
          simp [beqF, ihT t1 t2 (by omega)]
      · next i1 p1 r1 i2 p2 r2 =>
          simp only [functionDefinition.sizeOf_spec] at h
          simp [beqF, ihL p1 p2 (by omega), ihT r1 r2 (by omega), and_assoc]
      · next a1 r1 c1 a2 r2 c2 =>
          simp only [functionCall.sizeOf_spec] at h
          simp [beqF, ihL a1 a2 (by omega), ihT r1 r2 (by omega), ihT c1 c2 (by omega),
            and_assoc]
      · next n1 m1 n2 m2 =>
          simp only [externPackage.sizeOf_spec] at h
          simp [beqF, ihEL m1 m2 (by omega)]
    · intro xs ys h
      cases xs <;> cases ys <;> try (simp [beqListF]; done)
      next a as b bs =>
        simp only [List.cons.sizeOf_spec] at h
        simp [beqListF, ihT a b (by omega), ihL as bs (by omega)]
    · intro x y h
      cases x; cases y
      next i1 t1 i2 t2 =>
        simp only [RecordTypeMemeber.mk.sizeOf_spec] at h
        simp [beqMemberF, ihT t1 t2 (by omega)]
    · intro xs ys h
      cases xs <;> cases ys <;> try (simp [beqMembersF]; done)
      next a as b bs =>
        simp only [List.cons.sizeOf_spec] at h
        simp [beqMembersF, ihM a b (by omega), ihML as bs (by omega)]
    · intro x y h
      cases x; cases y
      next i1 v1 vs1 i2 v2 vs2 =>
        simp only [EnumDec.mk.sizeOf_spec] at h
        simp [beqEnumDecF, ihVL vs1 vs2 (by omega), and_assoc]
    · intro x y h
      cases x; cases y
      next n1 p1 n2 p2 =>
        simp only [EnumVariant.mk.sizeOf_spec] at h
        simp [beqVariantF, ihL p1 p2 (by omega)]
    · intro xs ys h
      cases xs <;> cases ys <;> try (simp [beqVariantsF]; done)
      next a as b bs =>
        simp only [List.cons.sizeOf_spec] at h
        simp [beqVariantsF, ihV a b (by omega), ihVL as bs (by omega)]
    · intro x y h
      cases x <;> cases y <;> try (simp [beqExternF]; done)
      · next l1 e1 p1 r1 l2 e2 p2 r2 =>
          simp only [ExternMember.function.sizeOf_spec] at h
          simp [beqExternF, ihPL p1 p2 (by omega), ihT r1 r2 (by omega), and_assoc]
      · next l1 e1 v1 l2 e2 v2 =>
          simp only [ExternMember.variableMember.sizeOf_spec] at h
          simp [beqExternF, ihT v1 v2 (by omega), and_assoc]
    · intro xs ys h
      cases xs <;> cases ys <;> try (simp [beqExternListF]; done)
      next a as b bs =>
        simp only [List.cons.sizeOf_spec] at h
        simp [beqExternListF, ihE a b (by omega), ihEL as bs (by omega)]
    · intro x y h
      cases x; cases y
      next i1 t1 i2 t2 =>
        simp only [FunctionParameter.mk.sizeOf_spec] at h
        simp [beqParamF, ihO t1 t2 (by omega)]
    · intro xs ys h
      cases xs <;> cases ys <;> try (simp [beqParamsF]; done)
      next a as b bs =>
        simp only [List.cons.sizeOf_spec] at h
        simp [beqParamsF, ihP a b (by omega), ihPL as bs (by omega)]
    · intro x y h
      cases x <;> cases y <;> try (simp [beqOptF]; done)
      next a b =>
        simp only [Option.some.sizeOf_spec] at h
        simp [beqOptF, ihT a b (by omega)]

/-- At any fuel, a `true` answer from a fueled equality test implies
propositional equality. -/
theorem beqF_sound : ∀ f : Nat,
    (∀ x y : TypeExpr, beqF f x y = true → x = y)
    ∧ (∀ xs ys : List TypeExpr, beqListF f xs ys = true → xs = ys)
    ∧ (∀ x y : RecordTypeMemeber, beqMemberF f x y = true → x = y)
    ∧ (∀ xs ys : List RecordTypeMemeber, beqMembersF f xs ys = true → xs = ys)
    ∧ (∀ x y : EnumDec, beqEnumDecF f x y = true → x = y)
    ∧ (∀ x y : EnumVariant, beqVariantF f x y = true → x = y)
    ∧ (∀ xs ys : List EnumVariant, beqVariantsF f xs ys = true → xs = ys)
    ∧ (∀ x y : ExternMember, beqExternF f x y = true → x = y)
    ∧ (∀ xs ys : List ExternMember, beqExternListF f xs ys = true → xs = ys)
    ∧ (∀ x y : FunctionParameter, beqParamF f x y = true → x = y)
    ∧ (∀ xs ys : List FunctionParameter, beqParamsF f xs ys = true → xs = ys)
    ∧ (∀ x y : Option TypeExpr, beqOptF f x y = true → x = y) := by
  intro f
  induction f with
  | zero =>
    refine ⟨?_, ?_, ?_, ?_, ?_, ?_, ?_, ?_, ?_, ?_, ?_, ?_⟩ <;>
      (intro x y h; simp [beqF, beqListF, beqMemberF, beqMembersF, beqEnumDecF, beqVariantF,
        beqVariantsF, beqExternF, beqExternListF, beqParamF, beqParamsF, beqOptF] at h)
  | succ f ih =>
    obtain ⟨ihT, ihL, ihM, ihML, ihED, ihV, ihVL, ihE, ihEL, ihP, ihPL, ihO⟩ := ih
    refine ⟨?_, ?_, ?_, ?_, ?_, ?_, ?_, ?_, ?_, ?_, ?_, ?_⟩
    · intro x y h
      cases x <;> cases y <;>
          simp only [beqF, Bool.and_eq_true, decide_eq_true_eq, Bool.false_eq_true] at h <;>
          try rfl
      · exact congrArg _ h
      · exact congrArg _ (ihML _ _ h)
      · exact congrArg _ (ihED _ _ h)
      · exact congrArg _ h
      · next t1 m1 t2 m2 => rw [ihT _ _ h.1, h.2]
      · next n1 l1 n2 l2 => rw [h.1, h.2]
      · next i1 p1 r1 i2 p2 r2 => rw [h.1.1, ihL _ _ h.1.2, ihT _ _ h.2]
      · next a1 r1 c1 a2 r2 c2 => rw [ihL _ _ h.1.1, ihT _ _ h.1.2, ihT _ _ h.2]
      · next n1 m1 n2 m2 => rw [h.1, ihEL _ _ h.2]
    · intro xs ys h
      cases xs <;> cases ys <;>
          simp only [beqListF, Bool.and_eq_true, Bool.false_eq_true] at h <;> try rfl
      next a as b bs => rw [ihT _ _ h.1, ihL _ _ h.2]
    · intro x y h
      cases x; cases y
      simp only [beqMemberF, Bool.and_eq_true, decide_eq_true_eq] at h
      rw [h.1, ihT _ _ h.2]
    · intro xs ys h
      cases xs <;> cases ys <;>
          simp only [beqMembersF, Bool.and_eq_true, Bool.false_eq_true] at h <;> try rfl
      next a as b bs => rw [ihM _ _ h.1, ihML _ _ h.2]
    · intro x y h
      cases x; cases y
      simp only [beqEnumDecF, Bool.and_eq_true, decide_eq_true_eq] at h
      rw [h.1.1, h.1.2, ihVL _ _ h.2]
    · intro x y h
      cases x; cases y
      simp only [beqVariantF, Bool.and_eq_true, decide_eq_true_eq] at h
      rw [h.1, ihL _ _ h.2]
    · intro xs ys h
      cases xs <;> cases ys <;>
          simp only [beqVariantsF, Bool.and_eq_true, Bool.false_eq_true] at h <;> try rfl
      next a as b bs => rw [ihV _ _ h.1, ihVL _ _ h.2]
    · intro x y h
      cases x <;> cases y <;>
          simp only [beqExternF, Bool.and_eq_true, decide_eq_true_eq,
            Bool.false_eq_true] at h
      · next l1 e1 p1 r1 l2 e2 p2 r2 => rw [h.1.1.1, h.1.1.2, ihPL _ _ h.1.2, ihT _ _ h.2]
      · next l1 e1 v1 l2 e2 v2 => rw [h.1.1, h.1.2, ihT _ _ h.2]
    · intro xs ys h
      cases xs <;> cases ys <;>
          simp only [beqExternListF, Bool.and_eq_true, Bool.false_eq_true] at h <;> try rfl
      next a as b bs => rw [ihE _ _ h.1, ihEL _ _ h.2]
    · intro x y h
      cases x; cases y
      simp only [beqParamF, Bool.and_eq_true, decide_eq_true_eq] at h
      rw [h.1, ihO _ _ h.2]
    · intro xs ys h
      cases xs <;> cases ys <;>
          simp only [beqParamsF, Bool.and_eq_true, Bool.false_eq_true] at h <;> try rfl
      next a as b bs => rw [ihP _ _ h.1, ihPL _ _ h.2]
    · intro x y h
      cases x <;> cases y <;>
          simp only [beqOptF, Bool.false_eq_true] at h <;> try rfl
      next a b => rw [ihT _ _ h]

/-- `true` answers from the fueled equality tests are preserved when the
fuel is increased by one. -/
theorem beqF_mono : ∀ f : Nat,
    (∀ x y : TypeExpr, beqF f x y = true → beqF (f + 1) x y = true)
    ∧ (∀ xs ys : List TypeExpr, beqListF f xs ys = true → beqListF (f + 1) xs ys = true)
    ∧ (∀ x y : RecordTypeMemeber, beqMemberF f x y = true → beqMemberF (f + 1) x y = true)
    ∧ (∀ xs ys : List RecordTypeMemeber,
        beqMembersF f xs ys = true → beqMembersF (f + 1) xs ys = true)
    ∧ (∀ x y : EnumDec, beqEnumDecF f x y = true → beqEnumDecF (f + 1) x y = true)
    ∧ (∀ x y : EnumVariant, beqVariantF f x y = true → beqVariantF (f + 1) x y = true)
    ∧ (∀ xs ys : List EnumVariant,
        beqVariantsF f xs ys = true → beqVariantsF (f + 1) xs ys = true)
    ∧ (∀ x y : ExternMember, beqExternF f x y = true → beqExternF (f + 1) x y = true)
    ∧ (∀ xs ys : List ExternMember,
        beqExternListF f xs ys = true → beqExternListF (f + 1) xs ys = true)
    ∧ (∀ x y : FunctionParameter, beqParamF f x y = true → beqParamF (f + 1) x y = true)
    ∧ (∀ xs ys : List FunctionParameter,
        beqParamsF f xs ys = true → beqParamsF (f + 1) xs ys = true)
    ∧ (∀ x y : Option TypeExpr, beqOptF f x y = true → beqOptF (f + 1) x y = true) := by
  intro f
  induction f with
  | zero =>
    refine ⟨?_, ?_, ?_, ?_, ?_, ?_, ?_, ?_, ?_, ?_, ?_, ?_⟩ <;>
      (intro x y h; simp [beqF, beqListF, beqMemberF, beqMembersF, beqEnumDecF, beqVariantF,
        beqVariantsF, beqExternF, beqExternListF, beqParamF, beqParamsF, beqOptF] at h)
  | succ f ih =>
    obtain ⟨ihT, ihL, ihM, ihML, ihED, ihV, ihVL, ihE, ihEL, ihP, ihPL, ihO⟩ := ih
    refine ⟨?_, ?_, ?_, ?_, ?_, ?_, ?_, ?_, ?_, ?_, ?_, ?_⟩
    · intro x y h
      cases x <;> cases y <;>
          simp only [beqF, Bool.and_eq_true, decide_eq_true_eq, Bool.false_eq_true] at h ⊢ <;>
          try (first | rfl | exact h)
      · exact ihML _ _ h
      · exact ihED _ _ h
      · exact ⟨ihT _ _ h.1, h.2⟩
      · exact ⟨⟨h.1.1, ihL _ _ h.1.2⟩, ihT _ _ h.2⟩
      · exact ⟨⟨ihL _ _ h.1.1, ihT _ _ h.1.2⟩, ihT _ _ h.2⟩
      · exact ⟨h.1, ihEL _ _ h.2⟩
    · intro xs ys h
      cases xs <;> cases ys <;>
          simp only [beqListF, Bool.and_eq_true, Bool.false_eq_true] at h ⊢ <;>
          try (first | rfl | exact h)
      exact ⟨ihT _ _ h.1, ihL _ _ h.2⟩
    · intro x y h
      cases x; cases y
      simp only [beqMemberF, Bool.and_eq_true, decide_eq_true_eq] at h ⊢
      exact ⟨h.1, ihT _ _ h.2⟩
    · intro xs ys h
      cases xs <;> cases ys <;>
          simp only [beqMembersF, Bool.and_eq_true, Bool.false_eq_true] at h ⊢ <;>
          try (first | rfl | exact h)
      exact ⟨ihM _ _ h.1, ihML _ _ h.2⟩
    · intro x y h
      cases x; cases y
      simp only [beqEnumDecF, Bool.and_eq_true, decide_eq_true_eq] at h ⊢
      exact ⟨h.1, ihVL _ _ h.2⟩
    · intro x y h
      cases x; cases y
      simp only [beqVariantF, Bool.and_eq_true, decide_eq_true_eq] at h ⊢
      exact ⟨h.1, ihL _ _ h.2⟩
    · intro xs ys h
      cases xs <;> cases ys <;>
          simp only [beqVariantsF, Bool.and_eq_true, Bool.false_eq_true] at h ⊢ <;>
          try (first | rfl | exact h)
      exact ⟨ihV _ _ h.1, ihVL _ _ h.2⟩
    · intro x y h
      cases x <;> cases y <;>
          simp only [beqExternF, Bool.and_eq_true, decide_eq_true_eq,
            Bool.false_eq_true] at h ⊢
      · exact ⟨⟨h.1.1, ihPL _ _ h.1.2⟩, ihT _ _ h.2⟩
      · exact ⟨h.1, ihT _ _ h.2⟩
    · intro xs ys h
      cases xs <;> cases ys <;>
          simp only [beqExternListF, Bool.and_eq_true, Bool.false_eq_true] at h ⊢ <;>
          try (first | rfl | exact h)
      exact ⟨ihE _ _ h.1, ihEL _ _ h.2⟩
    · intro x y h
      cases x; cases y
      simp only [beqParamF, Bool.and_eq_true, decide_eq_true_eq] at h ⊢
      exact ⟨h.1, ihO _ _ h.2⟩
    · intro xs ys h
      cases xs <;> cases ys <;>
          simp only [beqParamsF, Bool.and_eq_true, Bool.false_eq_true] at h ⊢ <;>
          try (first | rfl | exact h)
      exact ⟨ihP _ _ h.1, ihPL _ _ h.2⟩
    · intro x y h
      cases x <;> cases y <;>
          simp only [beqOptF, Bool.false_eq_true] at h ⊢ <;>
          try (first | rfl | exact h)
      exact ihT _ _ h

end TypeExpr

/-- `MixedIdentifier` from ast.rs. -/
inductive MixedIdentifier where
  | typeIdentifier (id : TypeIdentifier)
  | identifier (id : Identifier)
deriving DecidableEq

/-- `Pattern` from ast.rs. -/
inductive Pattern where
  | string (text : String)
  | number (text : String)
  | boolean (b : Bool)
  | valueRef (id : Identifier)

mutual

/-- `Expr` from ast.rs (all variants). -/
inductive Expr where
  | number (text : String)
  | string (text : String)
  | boolean (b : Bool)
  | functionDefinition (parameters : List FunctionParameter) (returnType : Option TypeExpr)
      (body : Expr) (scope : Option Nat) (identifier : Option Identifier)
  | valueReference (id : MixedIdentifier)
  | record (typeIdent : Option TypeIdentifier) (members : List ObjectMember)
  | array (elemType : TypeExpr) (items : List Expr)
  | blockExpression (statements : List BlockStatement) (scope : Option Nat)
  | void
  | binary (lhs : Expr) (op : BinaryOp) (rhs : Expr)
  | dotCall (callee : Expr) (member : Identifier)
  | functionCall (callee : Expr) (args : List Expr) (genericArgs : List Expr)
  | matchExpr (subject : Expr) (clauses : List MatchClause)
  | ifElse (cond : Expr) (trueBranch : Expr) (falseBranch : Expr)

/-- `ConstDec` from ast.rs. -/
inductive ConstDec where
  | mk (identifier : Identifier) (typeAnn : Option TypeExpr) (value : Expr)

/-- `BlockStatement` from ast.rs. -/
inductive BlockStatement where
  | constDec (dec : ConstDec)
  | returnStmt (e : Expr)
  | expr (e : Expr)

/-- `ObjectMember` from ast.rs. -/
inductive ObjectMember where
  | mk (key : Identifier) (value : Expr)

/-- `MatchClause` from ast.rs. -/
inductive MatchClause where
  | mk (pattern : Pattern) (body : Expr)

end

/-- Accessor for `ConstDec.identifier`. -/
def ConstDec.identifier : ConstDec → Identifier
  | .mk i _ _ => i

/-- Accessor for the type annotation of a `ConstDec`. -/
def ConstDec.typeAnn : ConstDec → Option TypeExpr
  | .mk _ a _ => a

/-- Accessor for `ConstDec.value`. -/
def ConstDec.value : ConstDec → Expr
  | .mk _ _ v => v

/-- `ModuleDec` from ast.rs. -/
structure ModuleDec where
  name : List String
  exports : List MixedIdentifier

/-- `PackageImport` from ast.rs. -/
structure PackageImport where
  packageName : List String
  aliasedName : Option String

/-- `ExternPackage` from ast.rs (an `extern` declaration). -/
structure ExternPackage where
  packageName : String
  definitions : List ExternMember

/-- `TypeDec` from ast.rs. -/
structure TypeDec where
  identifier : TypeIdentifier
  typeVars : List TypeIdentifier
  typeVal : TypeExpr
  scope : Option Nat

/-- `TopStatement` from ast.rs. -/
inductive TopStatement where
  | constDec (dec : ConstDec)
  | typeDec (dec : TypeDec)
  | expr (e : Expr)
  | enumDec (dec : EnumDec)
  | externDec (dec : ExternPackage)

/-- `Program` from ast.rs. -/
structure Program where
  moduleDec : ModuleDec
  imports : List PackageImport
  statements : List TopStatement
  scope : Option Nat

/-- `ParserError` from parser.rs. -/
structure ParserError where
  message : String
  lineNo : Nat
  colNo : Nat

/-- `Module` from compiler.rs.  The grammar parser is an external
collaborator (spec, section 1); the `parser` field is modelled by the
value that `parser.reset(); parser.parse()` deterministically produces
for the module's source text. -/
structure Module where
  path : String
  moduleName : String
  exports : List MixedIdentifier
  program : Option Program
  parseResult : Except ParserError Program

/-- `ModuleMap` from compiler.rs. -/
structure ModuleMap where
  modules : List Module
  indexByName : List (String × List Nat)
  indexByPath : List (String × Nat)

/-- `ModuleMap::new`. -/
def ModuleMap.new : ModuleMap := ⟨[], [], []⟩

/-- `ModuleMap::find_modules_by_name`. -/
def ModuleMap.findModulesByName (m : ModuleMap) (name : String) : Option (List Nat) :=
  m.indexByName.lookup name

/-- `ModuleMap::add_module`: pushes the module and indexes it by name
(appending to the name bucket) and by path. -/
def ModuleMap.addModule (m : ModuleMap) (mod : Module) : ModuleMap :=
  let index := m.modules.length
  { modules := m.modules ++ [mod]
    indexByName :=
      if (m.indexByName.lookup mod.moduleName).isSome then
        m.indexByName.map (fun p =>
          if p.1 = mod.moduleName then (p.1, p.2 ++ [index]) else p)
      else
        m.indexByName ++ [(mod.moduleName, [index])]
    indexByPath :=
      if (m.indexByPath.lookup mod.path).isSome then
        m.indexByPath.map (fun p => if p.1 = mod.path then (p.1, index) else p)
      else
        m.indexByPath ++ [(mod.path, index)] }

/-- `ValueSymbol` from scope.rs. -/
structure ValueSymbol where
  name : String
  typeExpr : TypeExpr
  scopeIndex : Nat

/-- `TypeSymbol` from scope.rs. -/
structure TypeSymbol where
  name : String
  typeExpr : TypeExpr
  scopeIndex : Nat

/-- `Scope` from scope.rs; the two `HashMap`s are association lists. -/
structure Scope where
  valueSymbols : List (String × ValueSymbol)
  typeSymbols : List (String × TypeSymbol)
  parent : Option Nat
  children : List Nat

/-- `ScopeTree` from scope.rs; `module_map` is the shared module map. -/
structure ScopeTree where
  scopes : List Scope
  moduleMap : ModuleMap
  nextTypeVar : Nat
  nextFn : Nat

/-- Joining `TypeIdentifier` segments with `.` (Rust `name.join(".")`). -/
def joinDot (segments : List String) : String :=
  String.intercalate "." segments

namespace ScopeTree

/-- `ScopeTree::new`: one root scope, counters at zero. -/
def new (moduleMap : ModuleMap) : ScopeTree :=
  { scopes := [{ valueSymbols := [], typeSymbols := [], parent := none, children := [] }]
    moduleMap := moduleMap
    nextTypeVar := 0
    nextFn := 0 }

/-- `ScopeTree::new_child_scope`: pushes the child scope, then looks the
parent up in the grown arena and appends the child index to its
children; `none` models the panic on a missing parent index. -/
def newChildScope (t : ScopeTree) (parentIndex : Nat) : Option (ScopeTree × Nat) :=
  let childIndex := t.scopes.length
  let child : Scope := { valueSymbols := [], typeSymbols := [], parent := some parentIndex,
                         children := [] }
  let scopes1 := t.scopes ++ [child]
  match scopes1.get? parentIndex with
  | none => none
  | some parentScope =>
      let parentScope1 := { parentScope with children := parentScope.children ++ [childIndex] }
      some ({ t with scopes := scopes1.set parentIndex parentScope1 }, childIndex)

/-- `ScopeTree::new_program_scope`: a child of the root scope. -/
def newProgramScope (t : ScopeTree) : Option (ScopeTree × Nat) :=
  t.newChildScope 0

/-- Fueled walk of `ScopeTree::find_value_symbol`: look in the scope,
then in its parent chain.  `none` covers both a failed search and the
panic on a missing scope index. -/
def findValueSymbolF : Nat → ScopeTree → Nat → String → Option ValueSymbol
  | 0, _, _, _ => none
  | f + 1, t, scopeIndex, identifier =>
    match t.scopes.get? scopeIndex with
    | none => none
    | some sc =>
      match sc.valueSymbols.lookup identifier with
      | some sym => some sym
      | none =>
        match sc.parent with
        | some p => findValueSymbolF f t p identifier
        | none => none

/-- `ScopeTree::find_value_symbol`; the arena length bounds the parent
chain of every parent-decreasing tree, so this fuel is exact for them. -/
def findValueSymbol (t : ScopeTree) (scopeIndex : Nat) (identifier : String) :
    Option ValueSymbol :=
  findValueSymbolF (t.scopes.length + 1) t scopeIndex identifier

/-- Fueled walk of `ScopeTree::find_type_symbol` over the joined key. -/
def findTypeSymbolF : Nat → ScopeTree → Nat → String → Option TypeSymbol
  | 0, _, _, _ => none
  | f + 1, t, scopeIndex, key =>
    match t.scopes.get? scopeIndex with
    | none => none
    | some sc =>
      match sc.typeSymbols.lookup key with
      | some sym => some sym
      | none =>
        match sc.parent with
        | some p => findTypeSymbolF f t p key
        | none => none

/-- `ScopeTree::find_type_symbol`: joins the identifier segments with
`.` and walks the parent chain. -/
def findTypeSymbol (t : ScopeTree) (scopeIndex : Nat) (identifier : TypeIdentifier) :
    Option TypeSymbol :=
  findTypeSymbolF (t.scopes.length + 1) t scopeIndex (joinDot identifier.name)

/-- `ScopeTree::create_value_symbol`: panics (`none`) when the name is
findable from the scope (the Rust code consults `find_value_symbol`,
which walks the parent chain) and otherwise inserts into the scope. -/
def createValueSymbol (t : ScopeTree) (scopeIndex : Nat) (identifier : String)
    (typeExpr : TypeExpr) : Option (ValueSymbol × ScopeTree) :=
  if (t.findValueSymbol scopeIndex identifier).isSome then
    none
  else
    match t.scopes.get? scopeIndex with
    | none => none
    | some sc =>
      let sym : ValueSymbol := { name := identifier, typeExpr := typeExpr,
                                 scopeIndex := scopeIndex }
      let sc1 := { sc with valueSymbols := sc.valueSymbols ++ [(identifier, sym)] }
      some (sym, { t with scopes := t.scopes.set scopeIndex sc1 })

/-- `ScopeTree::create_type_symbol`: panics (`none`) when the joined key
is findable from the scope, otherwise inserts into the scope. -/
def createTypeSymbol (t : ScopeTree) (scopeIndex : Nat) (identifier : TypeIdentifier)
    (typeExpr : TypeExpr) : Option (TypeSymbol × ScopeTree) :=
  let joinedName := joinDot identifier.name
  if (t.findTypeSymbol scopeIndex identifier).isSome then
    none
  else
    match t.scopes.get? scopeIndex with
    | none => none
    | some sc =>
      let sym : TypeSymbol := { name := joinedName, typeExpr := typeExpr,
                                scopeIndex := scopeIndex }
      let sc1 := { sc with typeSymbols := sc.typeSymbols ++ [(joinedName, sym)] }
      some (sym, { t with scopes := t.scopes.set scopeIndex sc1 })

/-- The fresh-variable name `format!("t{}", k)`. -/
def tVarName (k : Nat) : String :=
  "t" ++ Nat.repr k

/-- `ScopeTree::create_type_var`: allocates the name `t<counter>`,
bumps the counter, installs the inference-required type symbol and
returns that `TypeExpr`. -/
def createTypeVar (t : ScopeTree) (scopeIndex : Nat) : Option (TypeExpr × ScopeTree) :=
  let name := tVarName t.nextTypeVar
  let inferenceRequired := TypeExpr.inferenceRequired (some ⟨[name]⟩)
  let t1 := { t with nextTypeVar := t.nextTypeVar + 1 }
  match t1.createTypeSymbol scopeIndex ⟨[name]⟩ inferenceRequired with
  | none => none
  | some (_, t2) => some (inferenceRequired, t2)

/-- Fueled walk of `ScopeTree::update_type_symbol`: climb from the scope
to the first scope whose table contains the joined key and overwrite
that symbol's type; `none` models the panics (missing scope, root
reached without a hit) and divergence on cyclic parent chains. -/
def updateTypeSymbolF : Nat → ScopeTree → Nat → String → TypeExpr → Option ScopeTree
  | 0, _, _, _, _ => none
  | f + 1, t, scopeIndex, key, typeExpr =>
    match t.scopes.get? scopeIndex with
    | none => none
    | some sc =>
      if (sc.typeSymbols.lookup key).isSome then
        let sc1 := { sc with typeSymbols := sc.typeSymbols.map (fun p =>
          if p.1 = key then (p.1, { p.2 with typeExpr := typeExpr }) else p) }
        some ({ t with scopes := t.scopes.set scopeIndex sc1 })
      else
        match sc.parent with
        | some p => updateTypeSymbolF f t p key typeExpr
        | none => none

/-- `ScopeTree::update_type_symbol` with arena-length fuel. -/
def updateTypeSymbol (t : ScopeTree) (scopeIndex : Nat) (identifier : TypeIdentifier)
    (typeExpr : TypeExpr) : Option ScopeTree :=
  updateTypeSymbolF (t.scopes.length + 1) t scopeIndex (joinDot identifier.name) typeExpr

/-- Fueled `ScopeTree::resolve_type`: chase `TypeRef` and
`InferenceRequired(Some(..))` through the type-symbol tables; when the
lookup fails, climb to the parent scope unless it is the root; all
other type expressions resolve to themselves.  The equality test of the
Rust `!=` draws on the same fuel (a `true` answer is always sound). -/
def resolveTypeF : Nat → ScopeTree → TypeExpr → Nat → Option TypeExpr
  | 0, _, _, _ => none
  | f + 1, t, typeExpr, scopeIndex =>
    match typeExpr with
    | .typeRef id =>
      match t.findTypeSymbol scopeIndex id with
      | some typeSymbol =>
        let resolvedType := typeSymbol.typeExpr
        if TypeExpr.beqF (f + 1) resolvedType typeExpr then
          some resolvedType
        else
          resolveTypeF f t resolvedType scopeIndex
      | none =>
        match t.scopes.get? scopeIndex with
        | some sc =>
          let parent := sc.parent.getD 0
          if parent ≠ 0 then resolveTypeF f t typeExpr parent
          else some typeExpr
        | none => some typeExpr
    | .inferenceRequired (some id) =>
      match t.findTypeSymbol scopeIndex id with
      | some typeSymbol =>
        let resolvedType := typeSymbol.typeExpr
        if TypeExpr.beqF (f + 1) resolvedType typeExpr then
          some resolvedType
        else
          resolveTypeF f t resolvedType scopeIndex
      | none =>
        match t.scopes.get? scopeIndex with
        | some sc =>
          let parent := sc.parent.getD 0
          if parent ≠ 0 then resolveTypeF f t typeExpr parent
          else some typeExpr
        | none => some typeExpr
    | _ => some typeExpr

end ScopeTree




namespace ScopeTree

/-- One scope of `ScopeTree::apply_substitutions`: each value symbol's
type is replaced by its `resolve_type` against the original tree `t` at
the scope's arena index `i` (the Rust code clones the arena, computes
every resolution, then writes them back). -/
def applySubScope (t : ScopeTree) (resolveFuel : Nat) (i : Nat) (sc : Scope) :
    Option Scope :=
  (sc.valueSymbols.mapM (fun p =>
      (resolveTypeF resolveFuel t p.2.typeExpr i).map
        (fun resolved => (p.1, { p.2 with typeExpr := resolved })))).map
    (fun vs => { sc with valueSymbols := vs })

/-- Walk of `apply_substitutions` over the arena, in index order. -/
def applySubGo (t : ScopeTree) (resolveFuel : Nat) : Nat → List Scope → Option (List Scope)
  | _, [] => some []
  | i, sc :: rest => do
      let sc1 ← applySubScope t resolveFuel i sc
      let rest1 ← applySubGo t resolveFuel (i + 1) rest
      pure (sc1 :: rest1)

/-- `ScopeTree::apply_substitutions` with explicit resolution fuel. -/
def applySubstitutionsF (resolveFuel : Nat) (t : ScopeTree) : Option ScopeTree :=
  (applySubGo t resolveFuel 0 t.scopes).map (fun scopes => { t with scopes := scopes })

/-- Whether an export entry matches a member name, as in
`ScopeTree::resolve_import_member_type` (a `TypeIdentifier` export
matches on its first segment, an `Identifier` export on equality). -/
def exportMatches (memberName : Identifier) : MixedIdentifier → Bool
  | .typeIdentifier ti =>
    match ti.name with
    | h :: _ => h = memberName.name
    | [] => false
  | .identifier id => id = memberName

/-- `ScopeTree::resolve_import_member_type`: find the first candidate
module exporting the member, then read the member's value symbol out of
that module's program scope.  The outer `Option` models the Rust panics
(unknown module name, missing program scope, missing value symbol), the
inner one is the function's own `Option` result. -/
def resolveImportMemberType (t : ScopeTree) (moduleName : String)
    (memberName : Identifier) : Option (Option TypeExpr) :=
  match t.moduleMap.findModulesByName moduleName with
  | none => none
  | some modules =>
    match modules.find? (fun idx =>
        match t.moduleMap.modules.get? idx with
        | some m => m.exports.any (exportMatches memberName)
        | none => false) with
    | some index =>
      match t.moduleMap.modules.get? index with
      | none => none
      | some m =>
        match m.program with
        | some program =>
          match program.scope with
          | none => none
          | some programScope =>
            match t.findValueSymbol programScope memberName.name with
            | none => none
            | some sym => some (some sym.typeExpr)
        | none => some none
    | none => some none

end ScopeTree

/-- `ConstraintKind` from constraints.rs. -/
inductive ConstraintKind where
  | equality
  | subset
  | patternMatch
deriving DecidableEq

/-- `Constraint` from constraints.rs. -/
structure Constraint where
  lhs : TypeExpr
  rhs : TypeExpr
  kind : ConstraintKind
  scopeIndex : Nat

/-- `AnalyzeError` from analyze.rs. -/
structure AnalyzeError where
  message : String
  lhs : TypeExpr
  rhs : TypeExpr

mutual

/-- Fueled `unify` from analyze.rs: resolve both constraint sides, then
apply the match arms in source order.  `none` models divergence and the
panics inside `update_type_symbol`; `Except.error` carries the unifier's
own `AnalyzeError`. -/
def unifyF : Nat → Constraint → ScopeTree → Option (Except AnalyzeError ScopeTree)
  | 0, _, _ => none
  | f + 1, c, t =>
    match ScopeTree.resolveTypeF (f + 1) t c.lhs c.scopeIndex,
          ScopeTree.resolveTypeF (f + 1) t c.rhs c.scopeIndex with
    | some resolveLeft, some resolveRight =>
      match resolveLeft, resolveRight with
      | .number, .number => some (.ok t)
      | .string, .string => some (.ok t)
      | .void, .void => some (.ok t)
      | .inferenceRequired (some typeIden), _ =>
        match t.updateTypeSymbol c.scopeIndex typeIden resolveRight with
        | some t1 => some (.ok t1)
        | none => none
      | .functionDefinition _ leftParams leftReturnType,
        .functionDefinition _ rightParams rightReturnType =>
        if leftParams.length ≠ rightParams.length then
          some (.error { message := "Param counts don\x27t match",
                         lhs := resolveLeft, rhs := resolveRight })
        else
          unifyPairsF f (leftParams.zip rightParams) leftReturnType rightReturnType
            c.kind c.scopeIndex t
      | _, .inferenceRequired (some _) =>
        unifyF f { lhs := c.rhs, rhs := c.lhs, kind := c.kind, scopeIndex := c.scopeIndex } t
      | .functionCall args callReturnType _, .functionDefinition _ parameters defReturnType =>
        if args.length ≠ parameters.length then
          some (.error { message := "Wrong amount of args provided",
                         lhs := resolveLeft, rhs := resolveRight })
        else
          unifyPairsF f (args.zip parameters) callReturnType defReturnType
            c.kind c.scopeIndex t
      | _, _ =>
        some (.error { message := "Types don\x27t match",
                       lhs := resolveLeft, rhs := resolveRight })
    | _, _ => none

/-- The pairwise-unification loops of the two function arms of `unify`:
unify each pair in order, then the two return types. -/
def unifyPairsF : Nat → List (TypeExpr × TypeExpr) → TypeExpr → TypeExpr →
    ConstraintKind → Nat → ScopeTree → Option (Except AnalyzeError ScopeTree)
  | 0, _, _, _, _, _, _ => none
  | f + 1, [], leftReturn, rightReturn, _, scopeIndex, t =>
    unifyF f { lhs := leftReturn, rhs := rightReturn, kind := .equality,
               scopeIndex := scopeIndex } t
  | f + 1, (a, b) :: rest, leftReturn, rightReturn, kind, scopeIndex, t =>
    match unifyF f { lhs := a, rhs := b, kind := .equality, scopeIndex := scopeIndex } t with
    | some (.ok t1) => unifyPairsF f rest leftReturn rightReturn kind scopeIndex t1
    | some (.error e) => some (.error e)
    | none => none

end




/-- Accessor for `FunctionParameter.typeExpr`. -/
def FunctionParameter.typeExpr : FunctionParameter → Option TypeExpr
  | .mk _ t => t

/-- Accessor for `FunctionParameter.identifier`. -/
def FunctionParameter.identifier : FunctionParameter → Identifier
  | .mk i _ => i

/-- The `local_name` of an `ExternMember`. -/
def ExternMember.localName : ExternMember → Identifier
  | .function l _ _ _ => l
  | .variableMember l _ _ => l

/-- `ConstraintCollector` from constraints.rs: the borrowed scope tree
together with the constraint list built so far. -/
structure CollectorState where
  scopeTree : ScopeTree
  constraints : List Constraint

/-- `ConstraintCollector::push_constraint`. -/
def CollectorState.push (st : CollectorState) (c : Constraint) : CollectorState :=
  { st with constraints := st.constraints ++ [c] }

/-- The name a `ValueReference` is looked up under in `collect_expr`:
an identifier is used as-is, a type identifier contributes the first
segment of its dotted name. -/
def MixedIdentifier.headName : MixedIdentifier → Option String
  | .identifier i => some i.name
  | .typeIdentifier ti => ti.name.head?

mutual

/-- Fueled `ConstraintCollector::collect_expr`: returns the type the
expression has in the ambient scope and the updated collector state.
`none` models the `todo!()` holes, the panics, and fuel exhaustion; the
`resolve_type` calls and the block-statement equality test draw on the
same fuel. -/
def collectExprF : Nat → Expr → Nat → CollectorState → Option (TypeExpr × CollectorState)
  | 0, _, _, _ => none
  | f + 1, expr, parentScope, st =>
    match expr with
    | .number _ => some (.number, st)
    | .string _ => some (.string, st)
    | .boolean _ => some (.boolean, st)
    | .functionDefinition _ _ body (some fnScope) (some identifier) =>
      match st.scopeTree.findTypeSymbol fnScope ⟨[identifier.name]⟩ with
      | none => none
      | some fnTypeSymbol =>
        match fnTypeSymbol.typeExpr with
        | .functionDefinition _ _ returnType => do
          let (bodyReturns, st1) ← collectExprF f body fnScope st
          let st2 := st1.push ⟨returnType, bodyReturns, .equality, fnScope⟩
          pure (fnTypeSymbol.typeExpr, st2)
        | _ => none
    | .valueReference mixedIdentifier =>
      match MixedIdentifier.headName mixedIdentifier with
      | none => none
      | some idenName =>
        match st.scopeTree.findValueSymbol parentScope idenName with
        | none => none
        | some valueSymbol => some (valueSymbol.typeExpr, st)
    | .record _ _ => none
    | .array arrayType exprs => do
      let st1 ← collectArrayItemsF f arrayType exprs parentScope st
      pure (arrayType, st1)
    | .blockExpression statements scopeIndex =>
      match scopeIndex with
      | none => none
      | some blockScope => do
        let (returnedExprs, st1) ← collectBlockStmtsF f statements blockScope st
        let lastReturn := (returnedExprs.getLast?).getD .void
        let st2 := returnedExprs.foldl (fun acc returnedExpr =>
          if TypeExpr.beqF (f + 1) returnedExpr lastReturn then acc
          else acc.push ⟨lastReturn, returnedExpr, .equality, blockScope⟩) st1
        pure (lastReturn, st2)
    | .void => some (.void, st)
    | .binary left op right => do
      let (leftType, st1) ← collectExprF f left parentScope st
      let (rightType, st2) ← collectExprF f right parentScope st1
      let st3 := st2.push ⟨leftType, rightType, .equality, parentScope⟩
      let withNumbers := fun (st' : CollectorState) =>
        (st'.push ⟨.number, leftType, .equality, parentScope⟩).push
          ⟨.number, rightType, .equality, parentScope⟩
      match op with
      | .add => pure (.number, withNumbers st3)
      | .subtract => pure (.number, withNumbers st3)
      | .multiply => pure (.number, withNumbers st3)
      | .divide => pure (.number, withNumbers st3)
      | .equal => pure (.boolean, st3)
      | .notEqual => pure (.boolean, st3)
      | .greaterThan => pure (.boolean, withNumbers st3)
      | .greaterOrEqual => pure (.boolean, withNumbers st3)
      | .lessThan => pure (.boolean, withNumbers st3)
      | .lessOrEqual => pure (.boolean, withNumbers st3)
    | .dotCall callee memberIdentifier => do
      let (calleeType, st1) ← collectExprF f callee parentScope st
      let resolvedCalleeType ← ScopeTree.resolveTypeF (f + 1) st1.scopeTree calleeType
        parentScope
      match resolvedCalleeType with
      | .externPackage packageName members =>
        match members.find? (fun member => member.localName = memberIdentifier) with
        | some (.function localName _ parameters returnType) => do
          let typeIdentifier : TypeIdentifier := ⟨[packageName, localName.name]⟩
          let paramsTypes ← parameters.mapM FunctionParameter.typeExpr
          pure (.functionDefinition typeIdentifier paramsTypes returnType, st1)
        | some (.variableMember _ _ _) => none
        | none => none
      | .importRef name _ =>
        match st1.scopeTree.resolveImportMemberType name memberIdentifier with
        | some (some memberType) => some (memberType, st1)
        | _ => none
      | _ => none
    | .functionCall callee args _ => do
      let (calleeType, st1) ← collectExprF f callee parentScope st
      let resolvedType ← ScopeTree.resolveTypeF (f + 1) st1.scopeTree calleeType parentScope
      let alreadyResolvesToFn :=
        match resolvedType with
        | .functionDefinition _ _ _ => true
        | .functionCall _ _ _ => true
        | _ => false
      let (returnType, tree2) ← st1.scopeTree.createTypeVar parentScope
      let st2 : CollectorState := { scopeTree := tree2, constraints := st1.constraints }
      let (argTypes, st3) ← collectArgsF f args parentScope st2
      let fnCallType : TypeExpr := .functionCall argTypes returnType calleeType
      if alreadyResolvesToFn then
        pure (returnType, st3.push ⟨fnCallType, resolvedType, .equality, parentScope⟩)
      else do
        let identifier ←
          match resolvedType with
          | .typeRef typeIdentifier => some typeIdentifier
          | .inferenceRequired (some typeIdentifier) => some typeIdentifier
          | _ => none
        let (argTypes2, st4) ← collectArgsF f args parentScope st3
        let fnDefType : TypeExpr := .functionDefinition identifier argTypes2 returnType
        pure (returnType, st4.push ⟨resolvedType, fnDefType, .equality, parentScope⟩)
    | .matchExpr _ _ => none
    | .ifElse condition trueBranch falseBranch => do
      let (conditionType, st1) ← collectExprF f condition parentScope st
      let (trueBranchType, st2) ← collectExprF f trueBranch parentScope st1
      let (falseBranchType, st3) ← collectExprF f falseBranch parentScope st2
      let st4 := st3.push ⟨conditionType, .boolean, .equality, parentScope⟩
      let st5 := st4.push ⟨trueBranchType, falseBranchType, .equality, parentScope⟩
      pure (trueBranchType, st5)
    | .functionDefinition _ _ _ _ _ => none
termination_by structural f e ps st => f

/-- Fueled `ConstraintCollector::collect_const_dec`. -/
def collectConstDecF : Nat → ConstDec → Nat → CollectorState →
    Option (TypeExpr × CollectorState)
  | 0, _, _, _ => none
  | f + 1, constDec, parentScope, st =>
    match st.scopeTree.findValueSymbol parentScope constDec.identifier.name with
    | none => none
    | some valueSymbol => do
      let constType := valueSymbol.typeExpr
      let (exprType, st1) ← collectExprF f constDec.value parentScope st
      pure (constType, st1.push ⟨constType, exprType, .equality, parentScope⟩)
termination_by structural f c ps st => f

/-- Fueled `ConstraintCollector::collect_statement`. -/
def collectStatementF : Nat → BlockStatement → Nat → CollectorState →
    Option (TypeExpr × CollectorState)
  | 0, _, _, _ => none
  | f + 1, statement, parentScope, st =>
    match statement with
    | .constDec constDec => collectConstDecF f constDec parentScope st
    | .returnStmt e => collectExprF f e parentScope st
    | .expr e => collectExprF f e parentScope st
termination_by structural f s ps st => f

/-- The `Array` item loop of `collect_expr`: collect each item and
constrain it against the element type. -/
def collectArrayItemsF : Nat → TypeExpr → List Expr → Nat → CollectorState →
    Option CollectorState
  | 0, _, _, _, _ => none
  | _ + 1, _, [], _, st => some st
  | f + 1, arrayType, e :: rest, parentScope, st => do
    let (exprType, st1) ← collectExprF f e parentScope st
    collectArrayItemsF f arrayType rest parentScope
      (st1.push ⟨arrayType, exprType, .equality, parentScope⟩)
termination_by structural f a l ps st => f

/-- The block-statement loop of `collect_expr`: collect every statement
in the block scope and keep the types of `Return` statements. -/
def collectBlockStmtsF : Nat → List BlockStatement → Nat → CollectorState →
    Option (List TypeExpr × CollectorState)
  | 0, _, _, _ => none
  | _ + 1, [], _, st => some ([], st)
  | f + 1, statement :: rest, blockScope, st =>
    match statement with
    | .returnStmt e => do
      let (t1, st1) ← collectExprF f e blockScope st
      let (ts, st2) ← collectBlockStmtsF f rest blockScope st1
      pure (t1 :: ts, st2)
    | .constDec constDec => do
      let (_, st1) ← collectConstDecF f constDec blockScope st
      collectBlockStmtsF f rest blockScope st1
    | .expr e => do
      let (_, st1) ← collectExprF f e blockScope st
      collectBlockStmtsF f rest blockScope st1
termination_by structural f l bs st => f

/-- The argument loop of the `FunctionCall` arm of `collect_expr`. -/
def collectArgsF : Nat → List Expr → Nat → CollectorState →
    Option (List TypeExpr × CollectorState)
  | 0, _, _, _ => none
  | _ + 1, [], _, st => some ([], st)
  | f + 1, e :: rest, parentScope, st => do
    let (t1, st1) ← collectExprF f e parentScope st
    let (ts, st2) ← collectArgsF f rest parentScope st1
    pure (t1 :: ts, st2)
termination_by structural f l ps st => f

end


/-- `CompilerError` from compiler.rs. -/
inductive CompilerError where
  | parserError (e : ParserError)
  | other (message : String)

mutual

/-- Fueled recursion skeleton of `Compiler::process_module`
(compiler.rs): re-parse the module, recursively process every module
matching every import's dotted name, then run the per-module pipeline.
The pipeline (binding, collection, analysis, code emission) never
influences the recursion and is abstracted to its one observable
effect: populating the module's `program` field.  The result carries
the entry trace — for every (re-)entry the module index paired with
whether its `program` field was already populated.  There is no
memoization guard in the source, so nothing consults that field before
recursing. -/
def processModuleF : Nat → ModuleMap → Nat →
    Option (Except CompilerError (ModuleMap × List (Nat × Bool)))
  | 0, _, _ => none
  | f + 1, mm, moduleIndex =>
    match mm.modules.get? moduleIndex with
    | none => none
    | some m =>
      let entry := (moduleIndex, m.program.isSome)
      match m.parseResult with
      | .error e => some (.error (.parserError e))
      | .ok program =>
        match processImportsF f mm program.imports with
        | none => none
        | some (.error e) => some (.error e)
        | some (.ok (mm1, trace)) =>
          match mm1.modules.get? moduleIndex with
          | none => none
          | some m1 =>
            let m2 := { m1 with program := some program }
            let mm2 := { mm1 with modules := mm1.modules.set moduleIndex m2 }
            some (.ok (mm2, entry :: trace))

/-- The import loop of `process_module`: look each import's joined name
up and process all matching modules; an unknown name is the
`"No module found named .."` error. -/
def processImportsF : Nat → ModuleMap → List PackageImport →
    Option (Except CompilerError (ModuleMap × List (Nat × Bool)))
  | 0, _, _ => none
  | _ + 1, mm, [] => some (.ok (mm, []))
  | f + 1, mm, imp :: rest =>
    let joinedName := joinDot imp.packageName
    match mm.findModulesByName joinedName with
    | none => some (.error (.other ("No module found named " ++ joinedName)))
    | some importedModuleIndices =>
      match processIndicesF f mm importedModuleIndices with
      | none => none
      | some (.error e) => some (.error e)
      | some (.ok (mm1, trace1)) =>
        match processImportsF f mm1 rest with
        | none => none
        | some (.error e) => some (.error e)
        | some (.ok (mm2, trace2)) => some (.ok (mm2, trace1 ++ trace2))

/-- The inner loop of the import handling: process every module index
the name resolves to. -/
def processIndicesF : Nat → ModuleMap → List Nat →
    Option (Except CompilerError (ModuleMap × List (Nat × Bool)))
  | 0, _, _ => none
  | _ + 1, mm, [] => some (.ok (mm, []))
  | f + 1, mm, i :: rest =>
    match processModuleF f mm i with
    | none => none
    | some (.error e) => some (.error e)
    | some (.ok (mm1, trace1)) =>
      match processIndicesF f mm1 rest with
      | none => none
      | some (.error e) => some (.error e)
      | some (.ok (mm2, trace2)) => some (.ok (mm2, trace1 ++ trace2))

end

/-- `process_module` terminates on a module when some fuel suffices. -/
def ProcessTerminates (mm : ModuleMap) (moduleIndex : Nat) : Prop :=
  ∃ f r, processModuleF f mm moduleIndex = some r

/-- One step of the import loop of `CodeGenerator::generate_go`
(codegen.rs): take the import's last package-name segment, panic
(`none`) if it is already a key of the import map, otherwise record the
lowercased last segment under it and append the lowercased
`fygbuild/..`-prefixed path to the emitted imports. -/
def processGoImport (importMap : List (String × String)) (imports : List String)
    (imp : PackageImport) : Option (List (String × String) × List String) :=
  match imp.packageName.getLast? with
  | none => none
  | some lastSegement =>
    let packageName := "fygbuild" :: imp.packageName
    let goPackageName := (String.intercalate "/" packageName).toLower
    if (importMap.lookup lastSegement).isSome then
      none
    else
      match packageName.getLast? with
      | none => none
      | some lastOfPrefixed =>
        some (importMap ++ [(lastSegement, lastOfPrefixed.toLower)],
              imports ++ [goPackageName])

/-- The per-import loop of `generate_go`, run left to right over the
program's imports. -/
def generateGoImportsLoop : List PackageImport → List (String × String) → List String →
    Option (List (String × String) × List String)
  | [], importMap, imports => some (importMap, imports)
  | imp :: rest, importMap, imports =>
    match processGoImport importMap imports imp with
    | none => none
    | some (importMap1, imports1) => generateGoImportsLoop rest importMap1 imports1

/-- The import handling of `generate_go` for a program: the loop runs
only when the program's scope index is populated (`if let Some(..)`),
starting from the generator's empty import map and imports list. -/
def generateGoImports (p : Program) : Option (List (String × String) × List String) :=
  match p.scope with
  | some _ => generateGoImportsLoop p.imports [] []
  | none => some ([], [])

/-- The argument handling and exit-code logic of `main` (main.rs).
`args` is the full `env::args()` vector, whose first element is the
program name; the compiler run on the chosen path is an external effect
supplied as `compileResult`.  The result pairs whether the compiler ran
with the process exit code: fewer than three raw arguments print the
usage line and exit 1; otherwise the compiler runs on the *last*
argument and `main` returns `Ok(())` — process exit 0 — both on
`Ok` and on `Err` (the error is only printed). -/
def mainModel (args : List String) (compileResult : String → Except CompilerError Unit) :
    Bool × Nat :=
  if args.length < 3 then
    (false, 1)
  else
    let filePath := (args.getLast?).getD ""
    match compileResult filePath with
    | .ok _ => (true, 0)
    | .error _ => (true, 0)


/-- `Nat.toDigitsCore` in base 10 produces the decimal digits (most
significant first) in front of the accumulator, given enough fuel. -/
theorem toDigitsCore_eq (f : Nat) : ∀ (n : Nat) (acc : List Char), n < f → 0 < n →
    Nat.toDigitsCore 10 f n acc = ((Nat.digits 10 n).map Nat.digitChar).reverse ++ acc := by
  induction f with
  | zero => intro n acc h _; omega
  | succ f ih =>
    intro n acc hf hn
    simp only [Nat.toDigitsCore]
    by_cases h10 : n / 10 = 0
    · simp only [h10, if_true]
      rw [Nat.digits_def' (by norm_num : (1:Nat) < 10) hn, h10]
      simp
    · simp only [h10, if_false]
      rw [ih (n / 10) _ (by
            have h1 : n / 10 < n := Nat.div_lt_self hn (by norm_num)
            omega)
          (Nat.pos_of_ne_zero h10)]
      rw [Nat.digits_def' (by norm_num : (1:Nat) < 10) hn]
      simp

/-- `Nat.digitChar` is injective on digits below ten. -/
theorem digitChar_inj : ∀ a : Nat, a < 10 → ∀ b : Nat, b < 10 →
    Nat.digitChar a = Nat.digitChar b → a = b := by decide

/-- Mapping `Nat.digitChar` over digit lists below ten is injective. -/
theorem map_digitChar_inj : ∀ l1 l2 : List Nat, (∀ x ∈ l1, x < 10) → (∀ x ∈ l2, x < 10) →
    l1.map Nat.digitChar = l2.map Nat.digitChar → l1 = l2 := by
  intro l1
  induction l1 with
  | nil => intro l2 _ _ h; cases l2 <;> simp_all
  | cons a as ih =>
    intro l2 h1 h2 h
    cases l2 with
    | nil => simp at h
    | cons b bs =>
      simp only [List.map_cons, List.cons.injEq] at h
      have ha := digitChar_inj a (h1 a (by simp)) b (h2 b (by simp)) h.1
      rw [ha, ih bs (fun x hx => h1 x (by simp [hx])) (fun x hx => h2 x (by simp [hx])) h.2]

/-- The characters of `Nat.repr n` for positive `n` are the reversed
decimal digits. -/
theorem repr_data_eq (n : Nat) (hn : 0 < n) :
    (Nat.repr n).data = ((Nat.digits 10 n).map Nat.digitChar).reverse := by
  show (Nat.toDigits 10 n).asString.data = _
  rw [Nat.toDigits, List.asString]
  rw [toDigitsCore_eq (n + 1) n [] (Nat.lt_succ_self n) hn]
  simp

/-- The decimal rendering `Nat.repr` is injective. -/
theorem nat_repr_injective : ∀ m n : Nat, Nat.repr m = Nat.repr n → m = n := by
  have key : ∀ n : Nat, 0 < n → Nat.repr n ≠ Nat.repr 0 := by
    intro n hn hcontra
    have hd := congrArg String.data hcontra
    rw [repr_data_eq n hn] at hd
    have h0 : (Nat.repr 0).data = [Char.ofNat 48] := rfl
    rw [h0] at hd
    have hrev : (Nat.digits 10 n).map Nat.digitChar = [Char.ofNat 48] := by
      have := congrArg List.reverse hd
      simpa using this
    match hdig : Nat.digits 10 n with
    | [] => rw [hdig] at hrev; simp at hrev
    | x :: xs =>
      rw [hdig] at hrev
      cases xs with
      | nil =>
        simp only [List.map_cons, List.map_nil, List.cons.injEq] at hrev
        have hx : x < 10 := Nat.digits_lt_base (by norm_num) (by rw [hdig]; simp)
        have hx0 : x = 0 := digitChar_inj x hx 0 (by norm_num) (by
          rw [hrev.1]; rfl)
        have hof := Nat.ofDigits_digits 10 n
        rw [hdig, hx0] at hof
        simp [Nat.ofDigits] at hof
        omega
      | cons y ys => simp at hrev
  intro m n h
  rcases Nat.eq_zero_or_pos m with hm | hm
  · rcases Nat.eq_zero_or_pos n with hn | hn
    · omega
    · subst hm; exact absurd h.symm (key n hn)
  · rcases Nat.eq_zero_or_pos n with hn | hn
    · subst hn; exact absurd h (key m hm)
    · have hd := congrArg String.data h
      rw [repr_data_eq m hm, repr_data_eq n hn] at hd
      have hmap := List.reverse_injective hd
      have hdig := map_digitChar_inj _ _
        (fun x hx => Nat.digits_lt_base (by norm_num) hx)
        (fun x hx => Nat.digits_lt_base (by norm_num) hx) hmap
      have h1 := Nat.ofDigits_digits 10 m
      have h2 := Nat.ofDigits_digits 10 n
      rw [hdig] at h1
      omega

/-- The fresh-variable names `t<k>` are pairwise distinct. -/
theorem tVarName_injective : ∀ j k : Nat, ScopeTree.tVarName j = ScopeTree.tVarName k →
    j = k := by
  intro j k h
  have hd := congrArg String.data h
  simp only [ScopeTree.tVarName, String.data_append] at hd
  have : (Nat.repr j).data = (Nat.repr k).data := by simpa using hd
  exact nat_repr_injective j k (by
    have h1 : Nat.repr j = String.mk (Nat.repr j).data := rfl
    have h2 : Nat.repr k = String.mk (Nat.repr k).data := rfl
    rw [h1, h2, this])


namespace ScopeTree

/-- Parent-decreasing check for a scope arena starting at index `i0`:
every scope's parent index is strictly below its own index.  All trees
built through `new_child_scope` on existing parents satisfy it. -/
def wfFrom : Nat → List Scope → Bool
  | _, [] => true
  | i, sc :: rest =>
    (match sc.parent with
     | some p => decide (p < i)
     | none => true) && wfFrom (i + 1) rest

/-- A scope tree is well formed when its parent indices decrease. -/
def wf (t : ScopeTree) : Bool :=
  wfFrom 0 t.scopes

/-- Unfolding of `wfFrom` along `get?`. -/
theorem wfFrom_spec : ∀ (l : List Scope) (i0 i : Nat) (sc : Scope) (p : Nat),
    wfFrom i0 l = true → l.get? i = some sc → sc.parent = some p → p < i0 + i := by
  intro l
  induction l with
  | nil => intro i0 i sc p _ hget _; simp at hget
  | cons a rest ih =>
    intro i0 i sc p hwf hget hp
    simp only [wfFrom, Bool.and_eq_true] at hwf
    cases i with
    | zero =>
      simp only [List.get?] at hget
      cases hget
      rw [hp] at hwf
      have := hwf.1
      simp at this
      omega
    | succ i =>
      simp only [List.get?] at hget
      have := ih (i0 + 1) i sc p hwf.2 hget hp
      omega

/-- In a well-formed tree every stored parent index is strictly below
its scope's index. -/
theorem wf_parent_lt {t : ScopeTree} {i p : Nat} {sc : Scope} (hwf : t.wf = true)
    (hget : t.scopes.get? i = some sc) (hp : sc.parent = some p) : p < i := by
  have := wfFrom_spec t.scopes 0 i sc p hwf hget hp
  omega

/-- The fueled type-symbol walk is fuel-insensitive above the scope
index, in well-formed trees. -/
theorem findTypeSymbolF_stable {t : ScopeTree} (hwf : t.wf = true) :
    ∀ s, s < t.scopes.length → ∀ key f₁ f₂, s < f₁ → s < f₂ →
      findTypeSymbolF f₁ t s key = findTypeSymbolF f₂ t s key := by
  intro s
  induction s using Nat.strong_induction_on with
  | _ s ih =>
    intro hs key f₁ f₂ h₁ h₂
    obtain ⟨g₁, rfl⟩ : ∃ g, f₁ = g + 1 := ⟨f₁ - 1, by omega⟩
    obtain ⟨g₂, rfl⟩ : ∃ g, f₂ = g + 1 := ⟨f₂ - 1, by omega⟩
    simp only [findTypeSymbolF]
    cases hget : t.scopes.get? s with
    | none => rfl
    | some sc =>
      simp only [hget]
      cases hlook : sc.typeSymbols.lookup key with
      | some sym => simp [hlook]
      | none =>
        simp only [hlook]
        cases hp : sc.parent with
        | none => rfl
        | some p =>
          simp only [hp]
          have hlt : p < s := wf_parent_lt hwf hget hp
          have hplen : p < t.scopes.length := by omega
          exact ih p hlt hplen key g₁ g₂ (by omega) (by omega)

/-- The fueled value-symbol walk is fuel-insensitive above the scope
index, in well-formed trees. -/
theorem findValueSymbolF_stable {t : ScopeTree} (hwf : t.wf = true) :
    ∀ s, s < t.scopes.length → ∀ key f₁ f₂, s < f₁ → s < f₂ →
      findValueSymbolF f₁ t s key = findValueSymbolF f₂ t s key := by
  intro s
  induction s using Nat.strong_induction_on with
  | _ s ih =>
    intro hs key f₁ f₂ h₁ h₂
    obtain ⟨g₁, rfl⟩ : ∃ g, f₁ = g + 1 := ⟨f₁ - 1, by omega⟩
    obtain ⟨g₂, rfl⟩ : ∃ g, f₂ = g + 1 := ⟨f₂ - 1, by omega⟩
    simp only [findValueSymbolF]
    cases hget : t.scopes.get? s with
    | none => rfl
    | some sc =>
      simp only [hget]
      cases hlook : sc.valueSymbols.lookup key with
      | some sym => simp [hlook]
      | none =>
        simp only [hlook]
        cases hp : sc.parent with
        | none => rfl
        | some p =>
          simp only [hp]
          have hlt : p < s := wf_parent_lt hwf hget hp
          have hplen : p < t.scopes.length := by omega
          exact ih p hlt hplen key g₁ g₂ (by omega) (by omega)

/-- `a` is `s` or a transitive parent of `s` in the tree `t`. -/
inductive Ancestor (t : ScopeTree) : Nat → Nat → Prop
  | refl (s : Nat) : Ancestor t s s
  | step {s p a : Nat} (sc : Scope) (hsc : t.scopes.get? s = some sc)
      (hp : sc.parent = some p) (ha : Ancestor t a p) : Ancestor t a s

/-- A hit in an ancestor scope makes the fueled value-symbol walk
succeed (with ample fuel, in a well-formed tree). -/
theorem findValueSymbol_of_ancestor {t : ScopeTree} (hwf : t.wf = true) :
    ∀ (s a : Nat), Ancestor t a s → ∀ (sca : Scope) (key : String),
      t.scopes.get? a = some sca → (sca.valueSymbols.lookup key).isSome →
      (t.findValueSymbol s key).isSome := by
  intro s a ha
  induction ha with
  | refl s0 =>
    intro sca key hgeta hla
    unfold findValueSymbol
    simp only [findValueSymbolF, hgeta]
    cases hlook : sca.valueSymbols.lookup key with
    | some sym => simp [hlook]
    | none => rw [hlook] at hla; simp at hla
  | step sc0 hsc0 hp0 ha0 ih0 =>
    intro sca key hgeta hla
    unfold findValueSymbol
    simp only [findValueSymbolF, hsc0]
    cases hlook : sc0.valueSymbols.lookup key with
    | some sym => simp [hlook]
    | none =>
      simp only [hlook, hp0]
      rename_i s0 p0 a0
      have hrec := ih0 sca key hgeta hla
      unfold findValueSymbol at hrec
      obtain ⟨hs0len, -⟩ := List.get?_eq_some.mp hsc0
      have hp0s0 : p0 < s0 := wf_parent_lt hwf hsc0 hp0
      have hp0len : p0 < t.scopes.length := by omega
      rw [findValueSymbolF_stable hwf p0 hp0len key (t.scopes.length + 1)
        t.scopes.length (by omega) (by omega)] at hrec
      exact hrec

/-- In a well-formed tree, a successful value-symbol search is exactly a
hit in some ancestor scope. -/
theorem findValueSymbol_iff_ancestor {t : ScopeTree} (hwf : t.wf = true) :
    ∀ s, s < t.scopes.length → ∀ key,
      (t.findValueSymbol s key).isSome ↔
        ∃ a sc, Ancestor t a s ∧ t.scopes.get? a = some sc ∧
          (sc.valueSymbols.lookup key).isSome := by
  intro s
  induction s using Nat.strong_induction_on with
  | _ s ih =>
    intro hs key
    constructor
    · intro hfound
      unfold findValueSymbol at hfound
      rw [findValueSymbolF_stable hwf s hs key (t.scopes.length + 1) (s + 1)
        (by omega) (by omega)] at hfound
      simp only [findValueSymbolF] at hfound
      cases hget : t.scopes.get? s with
      | none => simp only [hget] at hfound; simp at hfound
      | some sc =>
        simp only [hget] at hfound
        cases hlook : sc.valueSymbols.lookup key with
        | some sym => exact ⟨s, sc, .refl s, hget, by rw [hlook]; rfl⟩
        | none =>
          simp only [hlook] at hfound
          cases hp : sc.parent with
          | none => simp only [hp] at hfound; simp at hfound
          | some p =>
            simp only [hp] at hfound
            have hplt : p < s := wf_parent_lt hwf hget hp
            have hpslen : p < t.scopes.length := by omega
            rw [findValueSymbolF_stable hwf p hpslen key s (t.scopes.length + 1)
              (by omega) (by omega)] at hfound
            obtain ⟨a, sca, ha, hgeta, hla⟩ := (ih p hplt hpslen key).mp hfound
            exact ⟨a, sca, .step sc hget hp ha, hgeta, hla⟩
    · rintro ⟨a, sca, ha, hgeta, hla⟩
      exact findValueSymbol_of_ancestor hwf s a ha sca key hgeta hla

/-- A hit in an ancestor scope makes the fueled type-symbol walk
succeed (with ample fuel, in a well-formed tree). -/
theorem findTypeSymbolKey_of_ancestor {t : ScopeTree} (hwf : t.wf = true) :
    ∀ (s a : Nat), Ancestor t a s → ∀ (sca : Scope) (key : String),
      t.scopes.get? a = some sca → (sca.typeSymbols.lookup key).isSome →
      (findTypeSymbolF (t.scopes.length + 1) t s key).isSome := by
  intro s a ha
  induction ha with
  | refl s0 =>
    intro sca key hgeta hla
    simp only [findTypeSymbolF, hgeta]
    cases hlook : sca.typeSymbols.lookup key with
    | some sym => simp [hlook]
    | none => rw [hlook] at hla; simp at hla
  | step sc0 hsc0 hp0 ha0 ih0 =>
    intro sca key hgeta hla
    simp only [findTypeSymbolF, hsc0]
    cases hlook : sc0.typeSymbols.lookup key with
    | some sym => simp [hlook]
    | none =>
      simp only [hlook, hp0]
      rename_i s0 p0 a0
      have hrec := ih0 sca key hgeta hla
      obtain ⟨hs0len, -⟩ := List.get?_eq_some.mp hsc0
      have hp0s0 : p0 < s0 := wf_parent_lt hwf hsc0 hp0
      have hp0len : p0 < t.scopes.length := by omega
      rw [findTypeSymbolF_stable hwf p0 hp0len key (t.scopes.length + 1)
        t.scopes.length (by omega) (by omega)] at hrec
      exact hrec

/-- In a well-formed tree, a successful type-symbol search is exactly a
hit in some ancestor scope. -/
theorem findTypeSymbolKey_iff_ancestor {t : ScopeTree} (hwf : t.wf = true) :
    ∀ s, s < t.scopes.length → ∀ key,
      (findTypeSymbolF (t.scopes.length + 1) t s key).isSome ↔
        ∃ a sc, Ancestor t a s ∧ t.scopes.get? a = some sc ∧
          (sc.typeSymbols.lookup key).isSome := by
  intro s
  induction s using Nat.strong_induction_on with
  | _ s ih =>
    intro hs key
    constructor
    · intro hfound
      rw [findTypeSymbolF_stable hwf s hs key (t.scopes.length + 1) (s + 1)
        (by omega) (by omega)] at hfound
      simp only [findTypeSymbolF] at hfound
      cases hget : t.scopes.get? s with
      | none => simp only [hget] at hfound; simp at hfound
      | some sc =>
        simp only [hget] at hfound
        cases hlook : sc.typeSymbols.lookup key with
        | some sym => exact ⟨s, sc, .refl s, hget, by rw [hlook]; rfl⟩
        | none =>
          simp only [hlook] at hfound
          cases hp : sc.parent with
          | none => simp only [hp] at hfound; simp at hfound
          | some p =>
            simp only [hp] at hfound
            have hplt : p < s := wf_parent_lt hwf hget hp
            have hpslen : p < t.scopes.length := by omega
            rw [findTypeSymbolF_stable hwf p hpslen key s (t.scopes.length + 1)
              (by omega) (by omega)] at hfound
            obtain ⟨a, sca, ha, hgeta, hla⟩ := (ih p hplt hpslen key).mp hfound
            exact ⟨a, sca, .step sc hget hp ha, hgeta, hla⟩
    · rintro ⟨a, sca, ha, hgeta, hla⟩
      exact findTypeSymbolKey_of_ancestor hwf s a ha sca key hgeta hla

end ScopeTree


namespace ScopeTree

/-- If a type-symbol search fails from a scope, it also fails from that
scope's parent (the parent chain is a suffix), in a well-formed tree. -/
theorem findTypeSymbol_none_parent {t : ScopeTree} (hwf : t.wf = true) {s p : Nat}
    {sc : Scope} {key : String} (hget : t.scopes.get? s = some sc)
    (hp : sc.parent = some p)
    (hnone : findTypeSymbolF (t.scopes.length + 1) t s key = none) :
    findTypeSymbolF (t.scopes.length + 1) t p key = none := by
  obtain ⟨hs, -⟩ := List.get?_eq_some.mp hget
  rw [findTypeSymbolF_stable hwf s hs key (t.scopes.length + 1) (s + 1)
    (by omega) (by omega)] at hnone
  simp only [findTypeSymbolF, hget] at hnone
  cases hlook : sc.typeSymbols.lookup key with
  | some sym => simp only [hlook] at hnone; exact absurd hnone (by simp)
  | none =>
    simp only [hlook, hp] at hnone
    have hps : p < s := wf_parent_lt hwf hget hp
    have hplen : p < t.scopes.length := by omega
    rw [findTypeSymbolF_stable hwf p hplen key s (t.scopes.length + 1)
      (by omega) (by omega)] at hnone
    exact hnone

/-- When the looked-up symbol stores exactly the input expression (a
direct self-reference), a successful `resolve_type` returns the input. -/
theorem resolveTypeF_selfloop {t : ScopeTree} {id : TypeIdentifier} {sym : TypeSymbol} :
    ∀ (f : Nat) {x r : TypeExpr} {s : Nat},
      (x = .typeRef id ∨ x = .inferenceRequired (some id)) →
      t.findTypeSymbol s id = some sym → sym.typeExpr = x →
      resolveTypeF f t x s = some r → r = x := by
  intro f
  induction f with
  | zero => intro x r s _ _ _ h; simp [resolveTypeF] at h
  | succ f ih =>
    intro x r s hx hfind hsym h
    rcases hx with hx | hx
    · subst hx
      simp only [resolveTypeF, hfind, hsym] at h
      cases hbeq : TypeExpr.beqF (f + 1) sym.typeExpr (.typeRef id) with
      | true =>
        rw [hsym] at hbeq
        simp only [hsym, hbeq, if_true] at h
        exact (Option.some.injEq _ _ ▸ h).symm
      | false =>
        rw [hsym] at hbeq
        simp only [hsym, hbeq, Bool.false_eq_true, if_false] at h
        exact ih (Or.inl rfl) hfind hsym h
    · subst hx
      simp only [resolveTypeF, hfind, hsym] at h
      cases hbeq : TypeExpr.beqF (f + 1) sym.typeExpr (.inferenceRequired (some id)) with
      | true =>
        rw [hsym] at hbeq
        simp only [hsym, hbeq, if_true] at h
        exact (Option.some.injEq _ _ ▸ h).symm
      | false =>
        rw [hsym] at hbeq
        simp only [hsym, hbeq, Bool.false_eq_true, if_false] at h
        exact ih (Or.inr rfl) hfind hsym h

/-- Successful resolutions are preserved when the fuel grows by one. -/
theorem resolveTypeF_mono : ∀ (f : Nat) {t : ScopeTree} {x r : TypeExpr} {s : Nat},
    resolveTypeF f t x s = some r → resolveTypeF (f + 1) t x s = some r := by
  intro f
  induction f with
  | zero => intro t x r s h; simp [resolveTypeF] at h
  | succ f ih =>
    intro t x r s h
    cases x with
    | typeRef id =>
      simp only [resolveTypeF] at h ⊢
      cases hfind : t.findTypeSymbol s id with
      | some sym =>
        simp only [hfind] at h ⊢
        cases hbeq : TypeExpr.beqF (f + 1) sym.typeExpr (.typeRef id) with
        | true =>
          simp only [hbeq, if_true] at h
          have hbeq2 := (TypeExpr.beqF_mono (f + 1)).1 _ _ hbeq
          simp only [hbeq2, if_true]
          exact h
        | false =>
          simp only [hbeq, Bool.false_eq_true, if_false] at h
          cases hbeq2 : TypeExpr.beqF (f + 1 + 1) sym.typeExpr (.typeRef id) with
          | false =>
            simp only [hbeq2, Bool.false_eq_true, if_false]
            exact ih h
          | true =>
            have heq := (TypeExpr.beqF_sound (f + 1 + 1)).1 _ _ hbeq2
            rw [heq] at h
            have hr := resolveTypeF_selfloop f (Or.inl rfl) hfind heq h
            simp only [hbeq2, if_true, heq, hr]
      | none =>
        simp only [hfind] at h ⊢
        cases hget : t.scopes.get? s with
        | none => simp only [hget] at h ⊢; exact h
        | some sc =>
          simp only [hget] at h ⊢
          by_cases hp : sc.parent.getD 0 ≠ 0
          · rw [if_pos hp] at h ⊢
            exact ih h
          · rw [if_neg hp] at h ⊢
            exact h
    | inferenceRequired idOpt =>
      cases idOpt with
      | none => simpa [resolveTypeF] using h
      | some id =>
        simp only [resolveTypeF] at h ⊢
        cases hfind : t.findTypeSymbol s id with
        | some sym =>
          simp only [hfind] at h ⊢
          cases hbeq : TypeExpr.beqF (f + 1) sym.typeExpr (.inferenceRequired (some id)) with
          | true =>
            simp only [hbeq, if_true] at h
            have hbeq2 := (TypeExpr.beqF_mono (f + 1)).1 _ _ hbeq
            simp only [hbeq2, if_true]
            exact h
          | false =>
            simp only [hbeq, Bool.false_eq_true, if_false] at h
            cases hbeq2 : TypeExpr.beqF (f + 1 + 1) sym.typeExpr
                (.inferenceRequired (some id)) with
            | false =>
              simp only [hbeq2, Bool.false_eq_true, if_false]
              exact ih h
            | true =>
              have heq := (TypeExpr.beqF_sound (f + 1 + 1)).1 _ _ hbeq2
              rw [heq] at h
              have hr := resolveTypeF_selfloop f (Or.inr rfl) hfind heq h
              simp only [hbeq2, if_true, heq, hr]
        | none =>
          simp only [hfind] at h ⊢
          cases hget : t.scopes.get? s with
          | none => simp only [hget] at h ⊢; exact h
          | some sc =>
            simp only [hget] at h ⊢
            by_cases hp : sc.parent.getD 0 ≠ 0
            · rw [if_pos hp] at h ⊢
              exact ih h
            · rw [if_neg hp] at h ⊢
              exact h
    | record ms => simpa [resolveTypeF] using h
    | enumDec d => simpa [resolveTypeF] using h
    | dotCall t1 m => simpa [resolveTypeF] using h
    | string => simpa [resolveTypeF] using h
    | number => simpa [resolveTypeF] using h
    | boolean => simpa [resolveTypeF] using h
    | void => simpa [resolveTypeF] using h
    | importRef n l => simpa [resolveTypeF] using h
    | functionDefinition i p r2 => simpa [resolveTypeF] using h
    | functionCall a r2 c => simpa [resolveTypeF] using h
    | externPackage n m => simpa [resolveTypeF] using h

/-- When the type-symbol lookup fails, `resolve_type` only climbs the
parent chain and hands the input back unchanged (well-formed tree). -/
theorem resolveTypeF_fallback {t : ScopeTree} (hwf : t.wf = true) :
    ∀ (f : Nat) {x r : TypeExpr} {s : Nat} {id : TypeIdentifier},
      (x = .typeRef id ∨ x = .inferenceRequired (some id)) →
      t.findTypeSymbol s id = none →
      resolveTypeF f t x s = some r → r = x := by
  intro f
  induction f with
  | zero => intro x r s id _ _ h; simp [resolveTypeF] at h
  | succ f ih =>
    intro x r s id hx hfind h
    rcases hx with hxx | hxx
    · subst hxx
      simp only [resolveTypeF, hfind] at h
      cases hget : t.scopes.get? s with
      | none =>
        simp only [hget] at h
        exact (Option.some.injEq _ _ ▸ h).symm
      | some sc =>
        simp only [hget] at h
        by_cases hp : sc.parent.getD 0 ≠ 0
        · rw [if_pos hp] at h
          cases hpar : sc.parent with
          | none => rw [hpar] at hp; simp at hp
          | some p =>
            rw [hpar] at h hp
            simp only [Option.getD] at h hp
            have hfind2 : findTypeSymbolF (t.scopes.length + 1) t s
                (joinDot id.name) = none := hfind
            have hnonep := findTypeSymbol_none_parent hwf hget hpar hfind2
            have hnonep2 : t.findTypeSymbol p id = none := hnonep
            exact ih (Or.inl rfl) hnonep2 h
        · rw [if_neg hp] at h
          exact (Option.some.injEq _ _ ▸ h).symm
    · subst hxx
      simp only [resolveTypeF, hfind] at h
      cases hget : t.scopes.get? s with
      | none =>
        simp only [hget] at h
        exact (Option.some.injEq _ _ ▸ h).symm
      | some sc =>
        simp only [hget] at h
        by_cases hp : sc.parent.getD 0 ≠ 0
        · rw [if_pos hp] at h
          cases hpar : sc.parent with
          | none => rw [hpar] at hp; simp at hp
          | some p =>
            rw [hpar] at h hp
            simp only [Option.getD] at h hp
            have hfind2 : findTypeSymbolF (t.scopes.length + 1) t s
                (joinDot id.name) = none := hfind
            have hnonep := findTypeSymbol_none_parent hwf hget hpar hfind2
            have hnonep2 : t.findTypeSymbol p id = none := hnonep
            exact ih (Or.inr rfl) hnonep2 h
        · rw [if_neg hp] at h
          exact (Option.some.injEq _ _ ▸ h).symm

/-- Resolution is idempotent at any fuel: a successfully resolved type
resolves to itself (well-formed tree). -/
theorem resolveTypeF_idem {t : ScopeTree} (hwf : t.wf = true) :
    ∀ (f : Nat) {x r : TypeExpr} {s : Nat},
      resolveTypeF f t x s = some r → resolveTypeF f t r s = some r := by
  intro f
  induction f with
  | zero => intro x r s h; simp [resolveTypeF] at h
  | succ f ih =>
    intro x r s h
    cases x with
    | typeRef id =>
      cases hfind : t.findTypeSymbol s id with
      | some sym =>
        have hmain := h
        simp only [resolveTypeF, hfind] at hmain
        cases hbeq : TypeExpr.beqF (f + 1) sym.typeExpr (.typeRef id) with
        | true =>
          simp only [hbeq, if_true] at hmain
          have heq := (TypeExpr.beqF_sound (f + 1)).1 _ _ hbeq
          have hr : r = .typeRef id := by
            rw [heq] at hmain
            exact (Option.some.injEq _ _ ▸ hmain).symm
          subst hr
          exact h
        | false =>
          simp only [hbeq, Bool.false_eq_true, if_false] at hmain
          exact resolveTypeF_mono f (ih hmain)
      | none =>
        have hr := resolveTypeF_fallback hwf (f + 1) (Or.inl rfl) hfind h
        subst hr
        exact h
    | inferenceRequired idOpt =>
      cases idOpt with
      | none =>
        have hr : r = .inferenceRequired none := by
          simp only [resolveTypeF] at h
          exact (Option.some.injEq _ _ ▸ h).symm
        subst hr
        exact h
      | some id =>
        cases hfind : t.findTypeSymbol s id with
        | some sym =>
          have hmain := h
          simp only [resolveTypeF, hfind] at hmain
          cases hbeq : TypeExpr.beqF (f + 1) sym.typeExpr (.inferenceRequired (some id)) with
          | true =>
            simp only [hbeq, if_true] at hmain
            have heq := (TypeExpr.beqF_sound (f + 1)).1 _ _ hbeq
            have hr : r = .inferenceRequired (some id) := by
              rw [heq] at hmain
              exact (Option.some.injEq _ _ ▸ hmain).symm
            subst hr
            exact h
          | false =>
            simp only [hbeq, Bool.false_eq_true, if_false] at hmain
            exact resolveTypeF_mono f (ih hmain)
        | none =>
          have hr := resolveTypeF_fallback hwf (f + 1) (Or.inr rfl) hfind h
          subst hr
          exact h
    | record ms =>
      have hr : r = .record ms := by
        simp only [resolveTypeF] at h
        exact (Option.some.injEq _ _ ▸ h).symm
      subst hr; exact h
    | enumDec d =>
      have hr : r = .enumDec d := by
        simp only [resolveTypeF] at h
        exact (Option.some.injEq _ _ ▸ h).symm
      subst hr; exact h
    | dotCall t1 m =>
      have hr : r = .dotCall t1 m := by
        simp only [resolveTypeF] at h
        exact (Option.some.injEq _ _ ▸ h).symm
      subst hr; exact h
    | string =>
      have hr : r = .string := by
        simp only [resolveTypeF] at h
        exact (Option.some.injEq _ _ ▸ h).symm
      subst hr; exact h
    | number =>
      have hr : r = .number := by
        simp only [resolveTypeF] at h
        exact (Option.some.injEq _ _ ▸ h).symm
      subst hr; exact h
    | boolean =>
      have hr : r = .boolean := by
        simp only [resolveTypeF] at h
        exact (Option.some.injEq _ _ ▸ h).symm
      subst hr; exact h
    | void =>
      have hr : r = .void := by
        simp only [resolveTypeF] at h
        exact (Option.some.injEq _ _ ▸ h).symm
      subst hr; exact h
    | importRef n l =>
      have hr : r = .importRef n l := by
        simp only [resolveTypeF] at h
        exact (Option.some.injEq _ _ ▸ h).symm
      subst hr; exact h
    | functionDefinition i p r2 =>
      have hr : r = .functionDefinition i p r2 := by
        simp only [resolveTypeF] at h
        exact (Option.some.injEq _ _ ▸ h).symm
      subst hr; exact h
    | functionCall a r2 c =>
      have hr : r = .functionCall a r2 c := by
        simp only [resolveTypeF] at h
        exact (Option.some.injEq _ _ ▸ h).symm
      subst hr; exact h
    | externPackage n m =>
      have hr : r = .externPackage n m := by
        simp only [resolveTypeF] at h
        exact (Option.some.injEq _ _ ▸ h).symm
      subst hr; exact h

/-- Two trees agree on everything `resolve_type` reads: arena length,
type-symbol tables and parent links. -/
def SameTypeStructure (t t' : ScopeTree) : Prop :=
  t.scopes.length = t'.scopes.length ∧
  ∀ i, (t.scopes.get? i).map (fun sc => (sc.typeSymbols, sc.parent))
      = (t'.scopes.get? i).map (fun sc => (sc.typeSymbols, sc.parent))

/-- The type-symbol walk only reads the type structure. -/
theorem findTypeSymbolF_congr {t t' : ScopeTree} (hst : SameTypeStructure t t') :
    ∀ (f : Nat) (s : Nat) (key : String),
      findTypeSymbolF f t s key = findTypeSymbolF f t' s key := by
  intro f
  induction f with
  | zero => intro s key; rfl
  | succ f ih =>
    intro s key
    have hi := hst.2 s
    cases hget : t.scopes.get? s with
    | none =>
      rw [hget] at hi
      cases hget' : t'.scopes.get? s with
      | none => simp only [findTypeSymbolF, hget, hget']
      | some sc' => rw [hget'] at hi; simp at hi
    | some sc =>
      rw [hget] at hi
      cases hget' : t'.scopes.get? s with
      | none => rw [hget'] at hi; simp at hi
      | some sc' =>
        rw [hget'] at hi
        simp only [Option.map_some', Option.some.injEq, Prod.mk.injEq] at hi
        simp only [findTypeSymbolF, hget, hget', hi.1, hi.2]
        cases sc'.typeSymbols.lookup key with
        | some sym => rfl
        | none =>
          cases sc'.parent with
          | none => rfl
          | some p => exact ih p key

/-- The type-symbol wrapper only reads the type structure. -/
theorem findTypeSymbol_congr {t t' : ScopeTree} (hst : SameTypeStructure t t') :
    ∀ (s : Nat) (id : TypeIdentifier), t.findTypeSymbol s id = t'.findTypeSymbol s id := by
  intro s id
  unfold findTypeSymbol
  rw [hst.1, findTypeSymbolF_congr hst]

/-- `resolve_type` only reads the type structure. -/
theorem resolveTypeF_congr {t t' : ScopeTree} (hst : SameTypeStructure t t') :
    ∀ (f : Nat) (x : TypeExpr) (s : Nat),
      resolveTypeF f t x s = resolveTypeF f t' x s := by
  intro f
  induction f with
  | zero => intro x s; rfl
  | succ f ih =>
    intro x s
    have hfind : ∀ id, t.findTypeSymbol s id = t'.findTypeSymbol s id :=
      fun id => findTypeSymbol_congr hst s id
    have hpar : ∀ sc, t.scopes.get? s = some sc →
        ∃ sc', t'.scopes.get? s = some sc' ∧ sc'.parent = sc.parent := by
      intro sc hget
      have hi := hst.2 s
      rw [hget] at hi
      cases hget' : t'.scopes.get? s with
      | none => rw [hget'] at hi; simp at hi
      | some sc' =>
        rw [hget'] at hi
        simp only [Option.map_some', Option.some.injEq, Prod.mk.injEq] at hi
        exact ⟨sc', rfl, hi.2.symm⟩
    have hnone : t.scopes.get? s = none → t'.scopes.get? s = none := by
      intro hget
      have hi := hst.2 s
      rw [hget] at hi
      cases hget' : t'.scopes.get? s with
      | none => rfl
      | some sc' => rw [hget'] at hi; simp at hi
    have hbranch : ∀ (id : TypeIdentifier) (x0 : TypeExpr),
        (match t.findTypeSymbol s id with
         | some typeSymbol =>
           let resolvedType := typeSymbol.typeExpr
           if TypeExpr.beqF (f + 1) resolvedType x0 then some resolvedType
           else resolveTypeF f t resolvedType s
         | none =>
           match t.scopes.get? s with
           | some sc =>
             let parent := sc.parent.getD 0
             if parent ≠ 0 then resolveTypeF f t x0 parent
             else some x0
           | none => some x0) =
        (match t'.findTypeSymbol s id with
         | some typeSymbol =>
           let resolvedType := typeSymbol.typeExpr
           if TypeExpr.beqF (f + 1) resolvedType x0 then some resolvedType
           else resolveTypeF f t' resolvedType s
         | none =>
           match t'.scopes.get? s with
           | some sc =>
             let parent := sc.parent.getD 0
             if parent ≠ 0 then resolveTypeF f t' x0 parent
             else some x0
           | none => some x0) := by
      intro id x0
      rw [← hfind id]
      cases t.findTypeSymbol s id with
      | some sym =>
        simp only
        cases TypeExpr.beqF (f + 1) sym.typeExpr x0 with
        | true => rfl
        | false => simp only [Bool.false_eq_true, if_false]; exact ih sym.typeExpr s
      | none =>
        simp only
        cases hget : t.scopes.get? s with
        | none => rw [hnone hget]
        | some sc =>
          obtain ⟨sc', hget', hpeq⟩ := hpar sc hget
          simp only [hget']
          rw [hpeq]
          by_cases hp : sc.parent.getD 0 ≠ 0
          · rw [if_pos hp, if_pos hp]
            exact ih x0 (sc.parent.getD 0)
          · rw [if_neg hp, if_neg hp]
    cases x with
    | typeRef id => exact hbranch id (.typeRef id)
    | inferenceRequired idOpt =>
      cases idOpt with
      | none => rfl
      | some id => exact hbranch id (.inferenceRequired (some id))
    | record ms => rfl
    | enumDec d => rfl
    | dotCall t1 m => rfl
    | string => rfl
    | number => rfl
    | boolean => rfl
    | void => rfl
    | importRef n l => rfl
    | functionDefinition i p r2 => rfl
    | functionCall a r2 c => rfl
    | externPackage n m => rfl

end ScopeTree

/-- Members of a successful `mapM` image come from members of the
source list. -/
theorem mapM_mem_of {α β : Type} (F : α → Option β) :
    ∀ (l : List α) (l₁ : List β), l.mapM F = some l₁ → ∀ q ∈ l₁, ∃ p ∈ l, F p = some q := by
  intro l
  induction l with
  | nil =>
    intro l₁ h q hq
    simp only [List.mapM_nil] at h
    cases h
    simp at hq
  | cons a rest ih =>
    intro l₁ h
    simp only [List.mapM_cons] at h
    cases hFa : F a with
    | none => rw [hFa] at h; simp at h
    | some b =>
      rw [hFa] at h
      cases hrest : rest.mapM F with
      | none => rw [hrest] at h; simp at h
      | some bs =>
        rw [hrest] at h
        have hl₁ : b :: bs = l₁ := by
          have h3 : (some b >>= fun x => some bs >>= fun xs => some (x :: xs))
              = some l₁ := h
          simpa using h3
        subst hl₁
        intro q hq
        rcases List.mem_cons.mp hq with hq | hq
        · exact ⟨a, by simp, by rw [hFa, hq]⟩
        · obtain ⟨p, hp, hFp⟩ := ih bs hrest q hq
          exact ⟨p, by simp [hp], hFp⟩

/-- A `mapM` whose function fixes every member returns the list. -/
theorem mapM_id_of {α : Type} (F : α → Option α) :
    ∀ (l : List α), (∀ p ∈ l, F p = some p) → l.mapM F = some l := by
  intro l
  induction l with
  | nil => intro _; rfl
  | cons a rest ih =>
    intro h
    rw [List.mapM_cons, h a (by simp), ih (fun p hp => h p (by simp [hp]))]
    rfl

namespace ScopeTree

/-- `applySubScope` keeps the type symbols and parent link. -/
theorem applySubScope_preserves {t : ScopeTree} {rf i : Nat} {sc sc' : Scope}
    (h : applySubScope t rf i sc = some sc') :
    sc'.typeSymbols = sc.typeSymbols ∧ sc'.parent = sc.parent := by
  unfold applySubScope at h
  cases hm : sc.valueSymbols.mapM (fun p =>
      (resolveTypeF rf t p.2.typeExpr i).map
        (fun resolved => (p.1, { p.2 with typeExpr := resolved }))) with
  | none => rw [hm] at h; simp at h
  | some vs =>
    rw [hm] at h
    simp only [Option.map_some', Option.some.injEq] at h
    rw [← h]
    exact ⟨rfl, rfl⟩

/-- Re-running `applySubScope` against a tree with the same type
structure fixes an already substituted scope. -/
theorem applySubScope_idem {t t₁ : ScopeTree} (hwf : t.wf = true)
    (hst : SameTypeStructure t t₁) {rf i : Nat} {sc sc' : Scope}
    (h : applySubScope t rf i sc = some sc') :
    applySubScope t₁ rf i sc' = some sc' := by
  unfold applySubScope at h ⊢
  cases hm : sc.valueSymbols.mapM (fun p =>
      (resolveTypeF rf t p.2.typeExpr i).map
        (fun resolved => (p.1, { p.2 with typeExpr := resolved }))) with
  | none => rw [hm] at h; simp at h
  | some vs =>
    rw [hm] at h
    simp only [Option.map_some', Option.some.injEq] at h
    have hvs : sc'.valueSymbols = vs := by rw [← h]
    have hfix : ∀ q ∈ vs, ((resolveTypeF rf t₁ q.2.typeExpr i).map
        (fun resolved => (q.1, { q.2 with typeExpr := resolved }))) = some q := by
      intro q hq
      obtain ⟨p, hp, hFp⟩ := mapM_mem_of _ sc.valueSymbols vs hm q hq
      cases hres : resolveTypeF rf t p.2.typeExpr i with
      | none => rw [hres] at hFp; simp at hFp
      | some r =>
        rw [hres] at hFp
        simp only [Option.map_some', Option.some.injEq] at hFp
        have hq2 : q.2.typeExpr = r := by rw [← hFp]
        have hcongr : resolveTypeF rf t₁ q.2.typeExpr i =
            resolveTypeF rf t q.2.typeExpr i := (resolveTypeF_congr hst rf _ i).symm
        rw [hcongr, hq2, resolveTypeF_idem hwf rf hres]
        simp only [Option.map_some', Option.some.injEq]
        have : { q.2 with typeExpr := r } = q.2 := by
          rw [← hq2]
        rw [this]
    rw [hvs, mapM_id_of _ vs hfix]
    simp only [Option.map_some', Option.some.injEq]
    rw [← h]

/-- `applySubGo` keeps lengths and the type structure of every scope. -/
theorem applySubGo_structure {t : ScopeTree} {rf : Nat} :
    ∀ (l : List Scope) (i : Nat) (l' : List Scope), applySubGo t rf i l = some l' →
      l'.length = l.length ∧ ∀ j, (l'.get? j).map (fun sc => (sc.typeSymbols, sc.parent))
        = (l.get? j).map (fun sc => (sc.typeSymbols, sc.parent)) := by
  intro l
  induction l with
  | nil =>
    intro i l' h
    simp only [applySubGo] at h
    cases h
    exact ⟨rfl, fun j => rfl⟩
  | cons sc rest ih =>
    intro i l' h
    simp only [applySubGo] at h
    cases hsc : applySubScope t rf i sc with
    | none => rw [hsc] at h; simp at h
    | some sc1 =>
      rw [hsc] at h
      cases hrest : applySubGo t rf (i + 1) rest with
      | none => rw [hrest] at h; simp at h
      | some rest1 =>
        rw [hrest] at h
        have h2 : sc1 :: rest1 = l' := by
          have : (some sc1 >>= fun x => some rest1 >>= fun xs => some (x :: xs))
              = some l' := h
          simpa using this
        obtain ⟨hlen, hpt⟩ := ih (i + 1) rest1 hrest
        obtain ⟨hts, hpar⟩ := applySubScope_preserves hsc
        constructor
        · rw [← h2]; simp [hlen]
        · intro j
          rw [← h2]
          cases j with
          | zero => simp [hts, hpar]
          | succ j => simpa using hpt j

/-- Re-running `applySubGo` against a tree with the same type structure
fixes the substituted arena. -/
theorem applySubGo_idem {t t₁ : ScopeTree} (hwf : t.wf = true)
    (hst : SameTypeStructure t t₁) {rf : Nat} :
    ∀ (l : List Scope) (i : Nat) (l' : List Scope), applySubGo t rf i l = some l' →
      applySubGo t₁ rf i l' = some l' := by
  intro l
  induction l with
  | nil =>
    intro i l' h
    simp only [applySubGo] at h
    cases h
    rfl
  | cons sc rest ih =>
    intro i l' h
    simp only [applySubGo] at h
    cases hsc : applySubScope t rf i sc with
    | none => rw [hsc] at h; simp at h
    | some sc1 =>
      rw [hsc] at h
      cases hrest : applySubGo t rf (i + 1) rest with
      | none => rw [hrest] at h; simp at h
      | some rest1 =>
        rw [hrest] at h
        have h2 : sc1 :: rest1 = l' := by
          have : (some sc1 >>= fun x => some rest1 >>= fun xs => some (x :: xs))
              = some l' := h
          simpa using this
        rw [← h2]
        simp only [applySubGo, applySubScope_idem hwf hst hsc,
          ih (i + 1) rest1 hrest]
        rfl

/-- `apply_substitutions` is idempotent: a second run over an already
substituted well-formed tree returns it unchanged. -/
theorem applySubstitutionsF_idem {t t₁ : ScopeTree} (hwf : t.wf = true) (rf : Nat)
    (h : applySubstitutionsF rf t = some t₁) : applySubstitutionsF rf t₁ = some t₁ := by
  unfold applySubstitutionsF at h
  cases hgo : applySubGo t rf 0 t.scopes with
  | none => rw [hgo] at h; simp at h
  | some l' =>
    rw [hgo] at h
    simp only [Option.map_some', Option.some.injEq] at h
    obtain ⟨hlen, hpt⟩ := applySubGo_structure t.scopes 0 l' hgo
    have hscopes : t₁.scopes = l' := by rw [← h]
    have hst : SameTypeStructure t t₁ := by
      constructor
      · rw [hscopes, hlen]
      · intro i
        rw [hscopes]
        exact (hpt i).symm
    unfold applySubstitutionsF
    rw [hscopes, applySubGo_idem hwf hst t.scopes 0 l' hgo]
    simp only [Option.map_some', Option.some.injEq]
    rw [← h, ← hscopes]

end ScopeTree


namespace ScopeTree

/-- Run a sequence of `new_child_scope` calls (parent index per call;
`new_program_scope` is the call with parent `0`) on a fresh tree. -/
def runScopeCallsFrom (t : ScopeTree) : List Nat → Option ScopeTree
  | [] => some t
  | p :: rest =>
    match newChildScope t p with
    | none => none
    | some (t1, _) => runScopeCallsFrom t1 rest

/-- All calls, starting from `ScopeTree::new`. -/
def runScopeCalls (mm : ModuleMap) (calls : List Nat) : Option ScopeTree :=
  runScopeCallsFrom (ScopeTree.new mm) calls

/-- The per-scope tree condition: the root has no parent; every other
scope has a parent that exists and lists it exactly once among its
children. -/
def scopeOk (t : ScopeTree) (i : Nat) (sc : Scope) : Bool :=
  if i = 0 then sc.parent.isNone
  else
    match sc.parent with
    | none => false
    | some p =>
      match t.scopes.get? p with
      | none => false
      | some psc => psc.children.count i = 1

/-- `scopeOk` for every scope of the arena, indices from `i0`. -/
def treeInvariantFrom (t : ScopeTree) : Nat → List Scope → Bool
  | _, [] => true
  | i, sc :: rest => scopeOk t i sc && treeInvariantFrom t (i + 1) rest

/-- The parent/children relation forms a tree (claim 9's condition). -/
def treeInvariant (t : ScopeTree) : Bool :=
  treeInvariantFrom t 0 t.scopes

/-- The inductive invariant: nonempty arena, parentless root, every
non-root scope counted once by its existing parent, and all children
indices within bounds. -/
def Inv (t : ScopeTree) : Prop :=
  0 < t.scopes.length ∧
  (∀ sc0, t.scopes.get? 0 = some sc0 → sc0.parent = none) ∧
  (∀ i sc, t.scopes.get? i = some sc → i ≠ 0 →
    ∃ p psc, sc.parent = some p ∧ t.scopes.get? p = some psc ∧ psc.children.count i = 1) ∧
  (∀ i sc, t.scopes.get? i = some sc → ∀ c ∈ sc.children, c < t.scopes.length)

/-- `treeInvariantFrom` says `scopeOk` at every offset. -/
theorem treeInvariantFrom_iff (t : ScopeTree) :
    ∀ (l : List Scope) (i0 : Nat), treeInvariantFrom t i0 l = true ↔
      ∀ j sc, l.get? j = some sc → scopeOk t (i0 + j) sc = true := by
  intro l
  induction l with
  | nil =>
    intro i0
    constructor
    · intro _ j sc hget; simp at hget
    · intro _; rfl
  | cons a rest ih =>
    intro i0
    simp only [treeInvariantFrom, Bool.and_eq_true]
    constructor
    · rintro ⟨hok, hrest⟩ j sc hget
      cases j with
      | zero =>
        simp only [List.get?] at hget
        cases hget
        simpa using hok
      | succ j =>
        simp only [List.get?] at hget
        have := (ih (i0 + 1)).mp hrest j sc hget
        have harith : i0 + 1 + j = i0 + (j + 1) := by omega
        rwa [harith] at this
    · intro hall
      constructor
      · simpa using hall 0 a rfl
      · refine (ih (i0 + 1)).mpr ?_
        intro j sc hget
        have := hall (j + 1) sc (by simpa using hget)
        have harith : i0 + (j + 1) = i0 + 1 + j := by omega
        rwa [harith] at this

/-- The inductive invariant yields the checked tree condition. -/
theorem inv_to_bool {t : ScopeTree} (hinv : Inv t) : treeInvariant t = true := by
  obtain ⟨hpos, hroot, hnode, hbound⟩ := hinv
  unfold treeInvariant
  refine (treeInvariantFrom_iff t t.scopes 0).mpr ?_
  intro j sc hget
  simp only [Nat.zero_add]
  unfold scopeOk
  by_cases hj : j = 0
  · subst hj
    rw [if_pos rfl, hroot sc hget]
    rfl
  · rw [if_neg hj]
    obtain ⟨p, psc, hp, hpget, hcount⟩ := hnode j sc hget hj
    simp only [hp, hpget]
    simpa using hcount

/-- The invariant holds for a fresh scope tree. -/
theorem inv_new (mm : ModuleMap) : Inv (ScopeTree.new mm) := by
  refine ⟨by simp [ScopeTree.new], ?_, ?_, ?_⟩
  · intro sc0 hget
    simp only [ScopeTree.new] at hget
    cases hget
    rfl
  · intro i sc hget hi
    simp only [ScopeTree.new] at hget
    cases i with
    | zero => exact absurd rfl hi
    | succ i => simp at hget
  · intro i sc hget c hc
    simp only [ScopeTree.new] at hget
    cases i with
    | zero =>
      cases hget
      simp at hc
    | succ i => simp at hget

/-- `new_child_scope` preserves the tree invariant. -/
theorem inv_step {t t1 : ScopeTree} {p ci : Nat} (hinv : Inv t)
    (h : newChildScope t p = some (t1, ci)) : Inv t1 := by
  obtain ⟨hpos, hroot, hnode, hbound⟩ := hinv
  simp only [newChildScope] at h
  split at h
  · simp at h
  · rename_i psc hget
    simp only [Option.some.injEq, Prod.mk.injEq] at h
    obtain ⟨ht1, hci⟩ := h
    subst hci
    subst ht1
    set c : Scope := { valueSymbols := [], typeSymbols := [], parent := some p,
                       children := [] } with hc
    set L := t.scopes.length with hL
    set psc1 : Scope := { psc with children := psc.children ++ [L] } with hpsc1
    have hlen1 : (t.scopes ++ [c]).length = L + 1 := by simp
    have hp_lt1 : p < L + 1 := by
      have := (List.get?_eq_some.mp hget).1
      simpa [hlen1] using this
    have hget_lt : ∀ i, i < L → (t.scopes ++ [c]).get? i = t.scopes.get? i := by
      intro i hi
      exact List.get?_append hi
    have hget_len : (t.scopes ++ [c]).get? L = some c := List.get?_concat_length _ _
    have hpsc_cases : (p < L ∧ t.scopes.get? p = some psc) ∨ (p = L ∧ psc = c) := by
      rcases Nat.lt_or_ge p L with hlt | hge
      · left
        refine ⟨hlt, ?_⟩
        rw [← hget_lt p hlt]
        exact hget
      · right
        have hpe : p = L := by omega
        refine ⟨hpe, ?_⟩
        rw [hpe] at hget
        rw [hget_len] at hget
        exact (Option.some.injEq _ _ ▸ hget).symm
    have hpscb : ∀ x ∈ psc.children, x < L := by
      rcases hpsc_cases with ⟨hlt, hpget⟩ | ⟨hpe, hpsc⟩
      · exact hbound p psc hpget
      · intro x hx
        rw [hpsc] at hx
        simp [hc] at hx
    have hcount0 : psc.children.count L = 0 := by
      rw [List.count_eq_zero]
      intro hmem
      exact absurd (hpscb L hmem) (lt_irrefl L)
    have hget2 : ∀ i, ((t.scopes ++ [c]).set p psc1).get? i =
        if p = i then ((t.scopes ++ [c]).get? i).map (fun _ => psc1)
        else (t.scopes ++ [c]).get? i := by
      intro i
      rw [List.get?_set]
      rfl
    refine ⟨by simpa using Nat.lt_succ_of_lt hpos, ?_, ?_, ?_⟩
    · -- the root keeps no parent
      intro sc0 hget0
      simp only at hget0
      rw [hget2 0] at hget0
      by_cases hp0 : p = 0
      · rw [if_pos hp0] at hget0
        subst hp0
        rcases hpsc_cases with ⟨hlt, hpget⟩ | ⟨hpe, hpsc⟩
        · rw [hget_lt 0 (by omega), hpget] at hget0
          simp only [Option.map_some', Option.some.injEq] at hget0
          rw [← hget0]
          have := hroot psc hpget
          simp [hpsc1, this]
        · omega
      · rw [if_neg hp0] at hget0
        rw [hget_lt 0 hpos] at hget0
        exact hroot sc0 hget0
    · -- every non-root scope is counted once by its parent
      intro i sc hgeti hi0
      simp only at hgeti
      rw [hget2 i] at hgeti
      by_cases hpi : p = i
      · rw [if_pos hpi] at hgeti
        subst hpi
        rcases hpsc_cases with ⟨hlt, hpget⟩ | ⟨hpe, hpsc⟩
        · rw [hget_lt p hlt, hpget] at hgeti
          simp only [Option.map_some', Option.some.injEq] at hgeti
          obtain ⟨pp, ppsc, hpp, hppget, hcount⟩ := hnode p psc hpget hi0
          refine ⟨pp, ?_⟩
          by_cases hppp : p = pp
          · refine ⟨psc1, ?_, ?_, ?_⟩
            · rw [← hgeti]
              simp [hpsc1, hpp]
            · rw [hget2 pp, if_pos hppp, ← hppp, hget_lt p hlt, hpget]
              rfl
            · have hpscpp : psc = ppsc := by
                rw [hppp] at hpget
                rw [hpget] at hppget
                exact (Option.some.injEq _ _ ▸ hppget)
              simp only [hpsc1, List.count_append]
              rw [← hpscpp] at hcount
              rw [hcount]
              have : List.count p [L] = 0 := by
                simp [List.count_singleton]
                omega
              omega
          · refine ⟨ppsc, ?_, ?_, ?_⟩
            · rw [← hgeti]
              simp [hpsc1, hpp]
            · have hpplen : pp < L := (by
                have := (List.get?_eq_some.mp hppget).1
                omega)
              rw [hget2 pp, if_neg hppp, hget_lt pp hpplen]
              exact hppget
            · exact hcount
        · -- the freshly pushed scope became its own parent
          subst hpe
          rw [hget_len] at hgeti
          simp only [Option.map_some', Option.some.injEq] at hgeti
          refine ⟨L, psc1, ?_, ?_, ?_⟩
          · rw [← hgeti]
            simp [hpsc1, hpsc, hc]
          · rw [hget2 L, if_pos rfl, hget_len]
            rfl
          · simp [hpsc1, hpsc, hc]
      · rw [if_neg hpi] at hgeti
        have hiL1 : i < L + 1 := by
          have := (List.get?_eq_some.mp hgeti).1
          simpa [hlen1] using this
        by_cases hiL : i < L
        · rw [hget_lt i hiL] at hgeti
          obtain ⟨pp, ppsc, hpp, hppget, hcount⟩ := hnode i sc hgeti hi0
          refine ⟨pp, ?_⟩
          have hpplen : pp < L := (by
            have := (List.get?_eq_some.mp hppget).1
            omega)
          by_cases hppp : p = pp
          · refine ⟨psc1, hpp, ?_, ?_⟩
            · rw [hget2 pp, if_pos hppp, hget_lt pp hpplen, hppget]
              rfl
            · have hpscpp : psc = ppsc := by
                rcases hpsc_cases with ⟨hlt, hpget⟩ | ⟨hpe, hpsc⟩
                · rw [hppp] at hpget
                  rw [hpget] at hppget
                  exact (Option.some.injEq _ _ ▸ hppget)
                · omega
              simp only [hpsc1, List.count_append]
              rw [← hpscpp] at hcount
              rw [hcount]
              have : List.count i [L] = 0 := by
                simp [List.count_singleton]
                omega
              omega
          · refine ⟨ppsc, hpp, ?_, hcount⟩
            rw [hget2 pp, if_neg hppp, hget_lt pp hpplen]
            exact hppget
        · have hieq : i = L := by omega
          subst hieq
          rw [hget_len] at hgeti
          have hsc : sc = c := (Option.some.injEq _ _ ▸ hgeti).symm
          refine ⟨p, psc1, ?_, ?_, ?_⟩
          · rw [hsc]
          · rw [hget2 p, if_pos rfl]
            rcases hpsc_cases with ⟨hlt, hpget⟩ | ⟨hpe, hpsc⟩
            · rw [hget_lt p hlt, hpget]
              rfl
            · omega
          · simp only [hpsc1, List.count_append, hcount0]
            simp [List.count_singleton]
    · -- children indices stay within the grown arena
      intro i sc hgeti c' hc'
      simp only at hgeti ⊢
      rw [hget2 i] at hgeti
      rw [List.length_set, hlen1]
      by_cases hpi : p = i
      · rw [if_pos hpi] at hgeti
        cases hgetci : (t.scopes ++ [c]).get? i with
        | none => rw [hgetci] at hgeti; simp at hgeti
        | some sci =>
          rw [hgetci] at hgeti
          simp only [Option.map_some', Option.some.injEq] at hgeti
          rw [← hgeti] at hc'
          simp only [hpsc1] at hc'
          rcases List.mem_append.mp hc' with hm | hm
          · exact Nat.lt_succ_of_lt (hpscb c' hm)
          · simp at hm
            omega
      · rw [if_neg hpi] at hgeti
        have hiL1 : i < L + 1 := by
          have := (List.get?_eq_some.mp hgeti).1
          simpa [hlen1] using this
        by_cases hiL : i < L
        · rw [hget_lt i hiL] at hgeti
          exact Nat.lt_succ_of_lt (hbound i sc hgeti c' hc')
        · have hieq : i = L := by omega
          subst hieq
          rw [hget_len] at hgeti
          have hsc : sc = c := (Option.some.injEq _ _ ▸ hgeti).symm
          rw [hsc] at hc'
          simp [hc] at hc'

/-- Running any successful sequence of scope-creation calls preserves
the invariant. -/
theorem runScopeCallsFrom_inv {t : ScopeTree} (hinv : Inv t) :
    ∀ (calls : List Nat) (t' : ScopeTree), runScopeCallsFrom t calls = some t' → Inv t' := by
  intro calls
  induction calls generalizing t with
  | nil =>
    intro t' h
    simp only [runScopeCallsFrom] at h
    cases h
    exact hinv
  | cons p rest ih =>
    intro t' h
    simp only [runScopeCallsFrom] at h
    cases hstep : newChildScope t p with
    | none => rw [hstep] at h; simp at h
    | some r =>
      rw [hstep] at h
      exact ih (inv_step hinv (by rw [hstep])) t' h

end ScopeTree

open ScopeTree

/-- An empty module map, as built by `ModuleMap::new`. -/
def mmE : ModuleMap := ModuleMap.new

/-- `resolve_type` terminates on an input when some fuel yields a value. -/
def ResolveTerminates (t : ScopeTree) (x : TypeExpr) (s : Nat) : Prop :=
  ∃ f r, resolveTypeF f t x s = some r

/-- A one-scope tree whose type symbols form the two-cycle
`A ↦ TypeRef B`, `B ↦ TypeRef A` (as `update_type_symbol` can create
during unification). -/
def cycTree : ScopeTree :=
  { scopes := [{ valueSymbols := []
                 typeSymbols := [("A", { name := "A", typeExpr := .typeRef ⟨["B"]⟩,
                                         scopeIndex := 0 }),
                                 ("B", { name := "B", typeExpr := .typeRef ⟨["A"]⟩,
                                         scopeIndex := 0 })]
                 parent := none
                 children := [] }]
    moduleMap := mmE
    nextTypeVar := 0
    nextFn := 0 }

/-- A one-scope tree with the direct self-reference
`S ↦ InferenceRequired(Some S)` (the shape `create_type_var` installs). -/
def selfTree : ScopeTree :=
  { scopes := [{ valueSymbols := []
                 typeSymbols := [("S", { name := "S",
                                         typeExpr := .inferenceRequired (some ⟨["S"]⟩),
                                         scopeIndex := 0 })]
                 parent := none
                 children := [] }]
    moduleMap := mmE
    nextTypeVar := 0
    nextFn := 0 }

/-- In `cycTree`, resolution of either cycle member runs out of any
fuel: the two-cycle alternates without reaching a fixpoint. -/
theorem cycTree_resolve_none : ∀ f : Nat,
    resolveTypeF f cycTree (.typeRef ⟨["A"]⟩) 0 = none ∧
    resolveTypeF f cycTree (.typeRef ⟨["B"]⟩) 0 = none := by
  intro f
  induction f with
  | zero => exact ⟨rfl, rfl⟩
  | succ f ih =>
    have hfindA : cycTree.findTypeSymbol 0 ⟨["A"]⟩
        = some { name := "A", typeExpr := .typeRef ⟨["B"]⟩, scopeIndex := 0 } := rfl
    have hfindB : cycTree.findTypeSymbol 0 ⟨["B"]⟩
        = some { name := "B", typeExpr := .typeRef ⟨["A"]⟩, scopeIndex := 0 } := rfl
    have hbeqAB : TypeExpr.beqF (f + 1) (.typeRef ⟨["B"]⟩) (.typeRef ⟨["A"]⟩) = false := by
      simp [TypeExpr.beqF]
    have hbeqBA : TypeExpr.beqF (f + 1) (.typeRef ⟨["A"]⟩) (.typeRef ⟨["B"]⟩) = false := by
      simp [TypeExpr.beqF]
    constructor
    · simp only [resolveTypeF, hfindA, hbeqAB, Bool.false_eq_true, if_false]
      exact ih.2
    · simp only [resolveTypeF, hfindB, hbeqBA, Bool.false_eq_true, if_false]
      exact ih.1

/-- C4, counterexample: on the two-cycle `A ↦ TypeRef B ↦ TypeRef A`
(cycle length 2), `resolve_type` does not terminate, although the claim
promises termination on every type expression with the input returned
unchanged for cycles of any length. -/
theorem c4_counterexample : ¬ ResolveTerminates cycTree (.typeRef ⟨["A"]⟩) 0 := by
  rintro ⟨f, r, hr⟩
  rw [(cycTree_resolve_none f).1] at hr
  cases hr

/-- C4, amended: `resolve_type` stops when the looked-up result equals
the input — in particular a self-referential symbol (cycle length one)
resolves to the input unchanged — and when the lookup fails it climbs
the parent chain and returns the input unchanged; cycles of length at
least two make it diverge (see the counterexample). -/
theorem c4_resolve_type_stops (f : Nat) (t : ScopeTree) (x r : TypeExpr) (s : Nat)
    (id : TypeIdentifier) :
    (x = .typeRef id ∨ x = .inferenceRequired (some id)) →
    ((∀ sym, t.findTypeSymbol s id = some sym → sym.typeExpr = x →
        resolveTypeF f t x s = some r → r = x) ∧
     (t.wf = true → t.findTypeSymbol s id = none →
        resolveTypeF f t x s = some r → r = x)) := by
  intro hx
  constructor
  · intro sym hfind hsym h
    exact resolveTypeF_selfloop f hx hfind hsym h
  · intro hwf hfind h
    exact resolveTypeF_fallback hwf f hx hfind h

/-- C4, witness: the amended theorem applied to the concrete
self-referential tree `selfTree` at fuel 4. -/
theorem c4_resolve_type_stops_witness :
    resolveTypeF 4 selfTree (.inferenceRequired (some ⟨["S"]⟩)) 0
      = some (.inferenceRequired (some ⟨["S"]⟩)) ∧
    selfTree.findTypeSymbol 0 ⟨["S"]⟩
      = some { name := "S", typeExpr := .inferenceRequired (some ⟨["S"]⟩), scopeIndex := 0 } ∧
    (.inferenceRequired (some ⟨["S"]⟩) : TypeExpr) = .inferenceRequired (some ⟨["S"]⟩) :=
  ⟨rfl, rfl,
    (c4_resolve_type_stops 4 selfTree (.inferenceRequired (some ⟨["S"]⟩))
        (.inferenceRequired (some ⟨["S"]⟩)) 0 ⟨["S"]⟩ (Or.inr rfl)).1
      { name := "S", typeExpr := .inferenceRequired (some ⟨["S"]⟩), scopeIndex := 0 }
      rfl rfl rfl⟩

/-- C1: on identical ground pairs the unifier succeeds without touching
the scope tree for `Number`, `String` and `Void` — but the source match
has no `(Boolean, Boolean)` arm, so that pair falls through to the
catch-all and fails with `Types don\x27t match`, contradicting the claim
(and spec section 4.4 rule 1 and section 8 property 6). -/
theorem c1_unify_ground_pairs :
    (∀ (t : ScopeTree) (s : Nat) (k : ConstraintKind),
      unifyF 1 { lhs := .number, rhs := .number, kind := k, scopeIndex := s } t
        = some (.ok t) ∧
      unifyF 1 { lhs := .string, rhs := .string, kind := k, scopeIndex := s } t
        = some (.ok t) ∧
      unifyF 1 { lhs := .void, rhs := .void, kind := k, scopeIndex := s } t
        = some (.ok t)) ∧
    unifyF 1 { lhs := .boolean, rhs := .boolean, kind := .equality, scopeIndex := 0 }
        (ScopeTree.new mmE)
      = some (.error { message := "Types don\x27t match", lhs := .boolean, rhs := .boolean }) :=
  ⟨fun _ _ _ => ⟨rfl, rfl, rfl⟩, rfl⟩


/-- The two-scope tree built by creating a child of the root and then
declaring the value `x : String` in the root scope. -/
def c2Tree : ScopeTree :=
  { scopes := [
      { valueSymbols := [("x", { name := "x", typeExpr := .string, scopeIndex := 0 })]
        typeSymbols := []
        parent := none
        children := [1] },
      { valueSymbols := []
        typeSymbols := []
        parent := some 0
        children := [] }]
    moduleMap := mmE
    nextTypeVar := 0
    nextFn := 0 }

/-- C2, counterexample: `c2Tree` is reached through the public API; the
name `x` is a value symbol only of the ancestor scope 0, not of the
child scope 1, and yet `create_value_symbol(1, "x", Number)` fails
(panics), because the redeclaration check consults `find_value_symbol`,
which walks the whole parent chain — contradicting the claim that a
declaration shadowing only an ancestor succeeds. -/
theorem c2_counterexample :
    ((ScopeTree.new mmE).newChildScope 0).map
        (fun r => (ScopeTree.createValueSymbol r.1 0 "x" .string).map Prod.snd)
      = some (some c2Tree) ∧
    (c2Tree.scopes.get? 1).map (fun sc => sc.valueSymbols.lookup "x") = some none ∧
    c2Tree.createValueSymbol 1 "x" .number = none :=
  ⟨rfl, rfl, rfl⟩

/-- C2, amended: `create_value_symbol(scope, name, type)` fails exactly
when *name* is a value symbol of *scope* or of any ancestor scope, and
`create_type_symbol` fails exactly when the dotted key is a type symbol
of the scope or of any ancestor — so a declaration in a child scope of
a name that exists only in an ancestor scope also fails. -/
theorem c2_create_symbol_fails_iff (t : ScopeTree) (s : Nat) (n : String)
    (ty ty2 : TypeExpr) (id : TypeIdentifier)
    (hwf : t.wf = true) (hs : s < t.scopes.length) :
    (t.createValueSymbol s n ty = none ↔
      ∃ a sc, Ancestor t a s ∧ t.scopes.get? a = some sc ∧
        (sc.valueSymbols.lookup n).isSome) ∧
    (t.createTypeSymbol s id ty2 = none ↔
      ∃ a sc, Ancestor t a s ∧ t.scopes.get? a = some sc ∧
        (sc.typeSymbols.lookup (joinDot id.name)).isSome) := by
  constructor
  · rw [← findValueSymbol_iff_ancestor hwf s hs n]
    unfold createValueSymbol
    cases hfind : t.findValueSymbol s n with
    | some sym => simp [hfind]
    | none =>
      simp only [hfind, Option.isSome_none, Bool.false_eq_true, if_false]
      cases hget : t.scopes.get? s with
      | none =>
        exfalso
        have := List.get?_eq_none.mp hget
        omega
      | some sc => simp [hget]
  · have hiff := findTypeSymbolKey_iff_ancestor hwf s hs (joinDot id.name)
    have hwrap : t.findTypeSymbol s id
        = findTypeSymbolF (t.scopes.length + 1) t s (joinDot id.name) := rfl
    rw [← hiff, ← hwrap]
    unfold createTypeSymbol
    cases hfind : t.findTypeSymbol s id with
    | some sym => simp [hfind]
    | none =>
      simp only [hfind, Option.isSome_none, Bool.false_eq_true, if_false]
      cases hget : t.scopes.get? s with
      | none =>
        exfalso
        have := List.get?_eq_none.mp hget
        omega
      | some sc => simp [hget]

/-- C2, witness: the amended theorem applied to `c2Tree`, scope 1. -/
theorem c2_create_symbol_fails_iff_witness :
    c2Tree.wf = true ∧ 1 < c2Tree.scopes.length ∧
    ((c2Tree.createValueSymbol 1 "y" .number = none ↔
      ∃ a sc, Ancestor c2Tree a 1 ∧ c2Tree.scopes.get? a = some sc ∧
        (sc.valueSymbols.lookup "y").isSome) ∧
     (c2Tree.createTypeSymbol 1 ⟨["T"]⟩ .number = none ↔
      ∃ a sc, Ancestor c2Tree a 1 ∧ c2Tree.scopes.get? a = some sc ∧
        (sc.typeSymbols.lookup (joinDot (⟨["T"]⟩ : TypeIdentifier).name)).isSome)) :=
  ⟨rfl, by decide,
    c2_create_symbol_fails_iff c2Tree 1 "y" .number .number ⟨["T"]⟩ rfl (by decide)⟩

/-- C3: invoked with exactly one positional argument (raw argument
vector `["fyg", "main.fyg"]`), `main` prints the usage line and exits
with code 1 without running the compiler, because the guard demands at
least three raw arguments; and when the compiler does run and fails,
`main` still returns `Ok(())`, so the process exits 0 — both
contradicting the claim. -/
theorem c3_cli_behavior :
    mainModel ["fyg", "main.fyg"] (fun _ => .ok ()) = (false, 1) ∧
    mainModel ["fyg", "main.fyg"]
        (fun _ => .error (.other "No module found named A")) = (false, 1) ∧
    mainModel ["fyg", "extra", "main.fyg"]
        (fun _ => .error (.other "No module found named A")) = (true, 0) ∧
    mainModel ["fyg", "extra", "main.fyg"] (fun _ => .ok ()) = (true, 0) :=
  ⟨rfl, rfl, rfl, rfl⟩


/-- A discovered module whose parse yields the given single-segment
name and import list, not yet processed. -/
def mkModule (name : String) (imports : List (List String)) : Module :=
  { path := name
    moduleName := name
    exports := []
    program := none
    parseResult := .ok
      { moduleDec := { name := [name], exports := [] }
        imports := imports.map (fun n => { packageName := n, aliasedName := none })
        statements := []
        scope := none } }

/-- Two modules importing each other: `A` imports `B`, `B` imports `A`. -/
def cycMap : ModuleMap :=
  (ModuleMap.new.addModule (mkModule "A" [["B"]])).addModule (mkModule "B" [["A"]])

/-- A diamond: `E` imports `M1` and `M2`, both of which import `M3`. -/
def diamondMap : ModuleMap :=
  (((ModuleMap.new.addModule (mkModule "E" [["M1"], ["M2"]])).addModule
      (mkModule "M1" [["M3"]])).addModule
      (mkModule "M2" [["M3"]])).addModule
      (mkModule "M3" [])

/-- The entry trace of `process_module`: for every (re-)entry, the
module index paired with whether its `program` field was already
populated on entry. -/
def processTraceF (f : Nat) (mm : ModuleMap) (i : Nat) :
    Option (Except CompilerError (List (Nat × Bool))) :=
  (processModuleF f mm i).map (fun e => e.map Prod.snd)

/-- On the cyclic import graph, every amount of fuel is exhausted:
`process_module` recurses through `A → B → A → ..` forever. -/
theorem cycMap_process_none : ∀ f : Nat,
    processModuleF f cycMap 0 = none ∧
    processModuleF f cycMap 1 = none ∧
    processIndicesF f cycMap [1] = none ∧
    processIndicesF f cycMap [0] = none ∧
    processImportsF f cycMap [{ packageName := ["B"], aliasedName := none }] = none ∧
    processImportsF f cycMap [{ packageName := ["A"], aliasedName := none }] = none := by
  have hm0 : cycMap.modules.get? 0 = some (mkModule "A" [["B"]]) := rfl
  have hm1 : cycMap.modules.get? 1 = some (mkModule "B" [["A"]]) := rfl
  have hfA : cycMap.findModulesByName (joinDot ["A"]) = some [0] := rfl
  have hfB : cycMap.findModulesByName (joinDot ["B"]) = some [1] := rfl
  intro f
  induction f with
  | zero => exact ⟨rfl, rfl, rfl, rfl, rfl, rfl⟩
  | succ f ih =>
    obtain ⟨ih0, ih1, ihi1, ihi0, ihB, ihA⟩ := ih
    refine ⟨?_, ?_, ?_, ?_, ?_, ?_⟩
    · simp only [processModuleF, hm0, mkModule, List.map]
      rw [ihB]
    · simp only [processModuleF, hm1, mkModule, List.map]
      rw [ihA]
    · simp only [processIndicesF]
      rw [ih1]
    · simp only [processIndicesF]
      rw [ih0]
    · simp only [processImportsF, hfB]
      rw [ihi1]
    · simp only [processImportsF, hfA]
      rw [ihi0]


/-- C5: `process_module` has no memoization guard.  On the cyclic pair
of imports `A ↔ B` its recursion exhausts every amount of fuel, so it
does not terminate; and on the diamond `E → {M1, M2} → M3` the module
`M3` is entered a second time after having been fully processed (its
`program` field populated), as the `(3, true)` entry of the trace
records — both contradicting the claim. -/
theorem c5_process_module_reentry :
    (¬ ProcessTerminates cycMap 0) ∧
    processTraceF 10 diamondMap 0
      = some (.ok [(0, false), (1, false), (3, false), (2, false), (3, true)]) ∧
    (3, true) ∈ [(0, false), (1, false), (3, false), (2, false), (3, true)] := by
  refine ⟨?_, rfl, by simp⟩
  rintro ⟨f, r, hr⟩
  rw [(cycMap_process_none f).1] at hr
  cases hr


/-- C6: `apply_substitutions` is idempotent — when a run over a
well-formed scope tree succeeds, running it again returns the very same
tree (value symbols keep their resolved types; type symbols, parents
and children are untouched by the pass). -/
theorem c6_apply_substitutions_idempotent (t t₁ : ScopeTree) (rf : Nat)
    (hwf : t.wf = true) (h : applySubstitutionsF rf t = some t₁) :
    applySubstitutionsF rf t₁ = some t₁ :=
  applySubstitutionsF_idem hwf rf h

/-- A one-scope tree with `x : TypeRef A`, `A ↦ TypeRef B`, `B ↦ Number`. -/
def tChain : ScopeTree :=
  { scopes := [{ valueSymbols := [("x", { name := "x", typeExpr := .typeRef ⟨["A"]⟩,
                                          scopeIndex := 0 })]
                 typeSymbols := [("A", { name := "A", typeExpr := .typeRef ⟨["B"]⟩,
                                         scopeIndex := 0 }),
                                 ("B", { name := "B", typeExpr := .number,
                                         scopeIndex := 0 })]
                 parent := none
                 children := [] }]
    moduleMap := mmE
    nextTypeVar := 0
    nextFn := 0 }

/-- `tChain` after one substitution pass: `x` now stores `Number`. -/
def tChain1 : ScopeTree :=
  { scopes := [{ valueSymbols := [("x", { name := "x", typeExpr := .number,
                                          scopeIndex := 0 })]
                 typeSymbols := [("A", { name := "A", typeExpr := .typeRef ⟨["B"]⟩,
                                         scopeIndex := 0 }),
                                 ("B", { name := "B", typeExpr := .number,
                                         scopeIndex := 0 })]
                 parent := none
                 children := [] }]
    moduleMap := mmE
    nextTypeVar := 0
    nextFn := 0 }

/-- C6, witness: the idempotence theorem applied to the concrete
chain `x : TypeRef A ↦ TypeRef B ↦ Number` at fuel 5. -/
theorem c6_apply_substitutions_idempotent_witness :
    tChain.wf = true ∧ applySubstitutionsF 5 tChain = some tChain1 ∧
    applySubstitutionsF 5 tChain1 = some tChain1 :=
  ⟨rfl, rfl, c6_apply_substitutions_idempotent tChain tChain1 5 rfl rfl⟩

/-- Looking a key up in an appended association list reduces to the
second list when the first misses it. -/
theorem lookup_append_of_none {α : Type} :
    ∀ (l₁ l₂ : List (String × α)) (k : String),
      l₁.lookup k = none → (l₁ ++ l₂).lookup k = l₂.lookup k := by
  intro l₁
  induction l₁ with
  | nil => intro l₂ k _; rfl
  | cons a rest ih =>
    intro l₂ k h
    simp only [List.cons_append, List.lookup] at h ⊢
    by_cases hbe : (k == a.1) = true
    · rw [hbe] at h; simp at h
    · rw [Bool.not_eq_true] at hbe
      rw [hbe] at h ⊢
      exact ih l₂ k h

/-- C7: with the counter at `k`, a successful `create_type_var` call
returns `InferenceRequired(Some(t<k>))`, bumps the counter to `k + 1`,
installs exactly that inference-required symbol under the key `t<k>` in
the given scope, and the names `t<j>` are pairwise distinct — so the
k-th call of a run (counting from one, counter starting at zero)
produces `t<k-1>` and no name is ever reused. -/
theorem c7_create_type_var (t : ScopeTree) (s k : Nat) (te : TypeExpr) (t' : ScopeTree)
    (hk : t.nextTypeVar = k) (h : t.createTypeVar s = some (te, t')) :
    te = .inferenceRequired (some ⟨[tVarName k]⟩) ∧
    t'.nextTypeVar = k + 1 ∧
    (∃ sc, t'.scopes.get? s = some sc ∧
      sc.typeSymbols.lookup (tVarName k)
        = some { name := tVarName k, typeExpr := te, scopeIndex := s }) ∧
    Function.Injective tVarName := by
  subst hk
  simp only [createTypeVar] at h
  cases hcr : ({ t with nextTypeVar := t.nextTypeVar + 1 } :
      ScopeTree).createTypeSymbol s ⟨[tVarName t.nextTypeVar]⟩
      (.inferenceRequired (some ⟨[tVarName t.nextTypeVar]⟩)) with
  | none => rw [hcr] at h; cases h
  | some r =>
    obtain ⟨rs, rt⟩ := r
    rw [hcr] at h
    simp only [Option.some.injEq, Prod.mk.injEq] at h
    obtain ⟨hte, ht'⟩ := h
    subst hte
    subst ht'
    set t1 : ScopeTree := { t with nextTypeVar := t.nextTypeVar + 1 } with ht1
    simp only [createTypeSymbol] at hcr
    by_cases hfind : (t1.findTypeSymbol s ⟨[tVarName t.nextTypeVar]⟩).isSome
    · rw [if_pos hfind] at hcr; cases hcr
    · rw [if_neg hfind] at hcr
      cases hget : t1.scopes.get? s with
      | none => rw [hget] at hcr; cases hcr
      | some sc =>
        rw [hget] at hcr
        simp only [Option.some.injEq, Prod.mk.injEq] at hcr
        obtain ⟨hsym, htree⟩ := hcr
        have hjoin : joinDot [tVarName t.nextTypeVar] = tVarName t.nextTypeVar := rfl
        have hlookup_none : sc.typeSymbols.lookup (tVarName t.nextTypeVar) = none := by
          by_contra hcon
          cases hlk : sc.typeSymbols.lookup (tVarName t.nextTypeVar) with
          | none => exact hcon hlk
          | some sym =>
            apply hfind
            unfold findTypeSymbol
            simp only [findTypeSymbolF, hjoin, hget, hlk]
            rfl
        subst htree
        simp only [hjoin]
        refine ⟨trivial, trivial,
          ⟨{ sc with typeSymbols := sc.typeSymbols ++
              [(tVarName t.nextTypeVar,
                { name := tVarName t.nextTypeVar,
                  typeExpr := .inferenceRequired (some ⟨[tVarName t.nextTypeVar]⟩),
                  scopeIndex := s })] }, ?_, ?_⟩,
          fun a b hab => tVarName_injective a b hab⟩
        · rw [List.get?_set]
          rw [if_pos rfl, hget]
          rfl
        · rw [lookup_append_of_none _ _ _ hlookup_none]
          simp [List.lookup]

/-- The tree produced by the first `create_type_var` call on a fresh
scope tree. -/
def c7Tree : ScopeTree :=
  { scopes := [{ valueSymbols := []
                 typeSymbols := [("t0", { name := "t0",
                                          typeExpr := .inferenceRequired (some ⟨["t0"]⟩),
                                          scopeIndex := 0 })]
                 parent := none
                 children := [] }]
    moduleMap := mmE
    nextTypeVar := 1
    nextFn := 0 }

/-- C7, witness: the theorem applied to the first call on a fresh tree. -/
theorem c7_create_type_var_witness :
    (ScopeTree.new mmE).nextTypeVar = 0 ∧
    (ScopeTree.new mmE).createTypeVar 0
      = some (.inferenceRequired (some ⟨[tVarName 0]⟩), c7Tree) ∧
    ((.inferenceRequired (some ⟨[tVarName 0]⟩) : TypeExpr)
        = .inferenceRequired (some ⟨[tVarName 0]⟩) ∧
      c7Tree.nextTypeVar = 0 + 1 ∧
      (∃ sc, c7Tree.scopes.get? 0 = some sc ∧
        sc.typeSymbols.lookup (tVarName 0)
          = some { name := tVarName 0,
                   typeExpr := .inferenceRequired (some ⟨[tVarName 0]⟩),
                   scopeIndex := 0 }) ∧
      Function.Injective tVarName) :=
  ⟨rfl, rfl,
    c7_create_type_var (ScopeTree.new mmE) 0 0
      (.inferenceRequired (some ⟨[tVarName 0]⟩)) c7Tree rfl rfl⟩


/-- The `Binary` arm of `collect_expr`, read off the definition:
collect the operands left to right, push the operand-equality
constraint and, per operator, the two `Number` constraints. -/
theorem collect_binary_eq (f : Nat) (l r : Expr) (op : BinaryOp) (ps : Nat)
    (st : CollectorState) :
    collectExprF (f + 1) (.binary l op r) ps st
      = (do
          let (leftType, st1) ← collectExprF f l ps st
          let (rightType, st2) ← collectExprF f r ps st1
          let st3 := st2.push ⟨leftType, rightType, .equality, ps⟩
          let withNumbers := fun (st4 : CollectorState) =>
            (st4.push ⟨.number, leftType, .equality, ps⟩).push
              ⟨.number, rightType, .equality, ps⟩
          match op with
          | .add => pure (.number, withNumbers st3)
          | .subtract => pure (.number, withNumbers st3)
          | .multiply => pure (.number, withNumbers st3)
          | .divide => pure (.number, withNumbers st3)
          | .equal => pure (.boolean, st3)
          | .notEqual => pure (.boolean, st3)
          | .greaterThan => pure (.boolean, withNumbers st3)
          | .greaterOrEqual => pure (.boolean, withNumbers st3)
          | .lessThan => pure (.boolean, withNumbers st3)
          | .lessOrEqual => pure (.boolean, withNumbers st3)) := rfl

/-- C8: collecting `Binary(l, op, r)` first collects both operands,
then pushes `lt = rt`; for arithmetic and relational operators it also
pushes `Number = lt` and `Number = rt`; the returned type is `Number`
for arithmetic operators and `Boolean` for relational and (in)equality
operators. -/
theorem c8_collect_binary (f : Nat) (l r : Expr) (op : BinaryOp) (ps : Nat)
    (st : CollectorState) (ty : TypeExpr) (st2 : CollectorState)
    (h : collectExprF (f + 1) (.binary l op r) ps st = some (ty, st2)) :
    ∃ lt stL rt stR,
      collectExprF f l ps st = some (lt, stL) ∧
      collectExprF f r ps stL = some (rt, stR) ∧
      st2.scopeTree = stR.scopeTree ∧
      st2.constraints = stR.constraints ++
        (⟨lt, rt, .equality, ps⟩ : Constraint) ::
        (if op = .equal ∨ op = .notEqual then []
         else [⟨.number, lt, .equality, ps⟩, ⟨.number, rt, .equality, ps⟩]) ∧
      ty = (if op = .add ∨ op = .subtract ∨ op = .multiply ∨ op = .divide
            then .number else .boolean) := by
  rw [collect_binary_eq] at h
  cases hl : collectExprF f l ps st with
  | none => rw [hl] at h; simp at h
  | some p =>
    obtain ⟨lt, stL⟩ := p
    rw [hl] at h
    simp only [Option.bind_eq_bind, Option.some_bind] at h
    cases hr : collectExprF f r ps stL with
    | none => rw [hr] at h; simp at h
    | some q =>
      obtain ⟨rt, stR⟩ := q
      rw [hr] at h
      simp only [Option.bind_eq_bind, Option.some_bind] at h
      refine ⟨lt, stL, rt, stR, rfl, hr, ?_⟩
      cases op <;>
        (simp only [Option.some.injEq, Prod.mk.injEq, pure] at h
         obtain ⟨hty, hst⟩ := h
         subst hty
         subst hst
         exact ⟨rfl, by simp [CollectorState.push], by simp⟩)

/-- The initial collector state over a fresh scope tree. -/
def c8st : CollectorState := { scopeTree := ScopeTree.new mmE, constraints := [] }

/-- C8, witness: the theorem applied to `1 + 2` collected in scope 0. -/
theorem c8_collect_binary_witness :
    ∃ lt stL rt stR,
      collectExprF 1 (.number "1") 0 c8st = some (lt, stL) ∧
      collectExprF 1 (.number "2") 0 stL = some (rt, stR) ∧
      (({ scopeTree := ScopeTree.new mmE
          constraints := [⟨.number, .number, .equality, 0⟩,
                          ⟨.number, .number, .equality, 0⟩,
                          ⟨.number, .number, .equality, 0⟩] } : CollectorState)).scopeTree
        = stR.scopeTree ∧
      (({ scopeTree := ScopeTree.new mmE
          constraints := [⟨.number, .number, .equality, 0⟩,
                          ⟨.number, .number, .equality, 0⟩,
                          ⟨.number, .number, .equality, 0⟩] } : CollectorState)).constraints
        = stR.constraints ++
          (⟨lt, rt, .equality, 0⟩ : Constraint) ::
          (if BinaryOp.add = .equal ∨ BinaryOp.add = .notEqual then []
           else [⟨.number, lt, .equality, 0⟩, ⟨.number, rt, .equality, 0⟩]) ∧
      (.number : TypeExpr)
        = (if BinaryOp.add = .add ∨ BinaryOp.add = .subtract ∨
              BinaryOp.add = .multiply ∨ BinaryOp.add = .divide
           then .number else .boolean) :=
  c8_collect_binary 1 (.number "1") (.number "2") .add 0 c8st .number
    { scopeTree := ScopeTree.new mmE
      constraints := [⟨.number, .number, .equality, 0⟩,
                      ⟨.number, .number, .equality, 0⟩,
                      ⟨.number, .number, .equality, 0⟩] } rfl


/-- C9: any sequence of scope-creation calls on a fresh tree keeps the
parent/child relation a tree — scope 0 has no parent, every other scope
names an existing parent whose children list counts it exactly once.
`new_program_scope` is `new_child_scope` at parent 0, so call sequences
over arbitrary parent indices cover both entry points. -/
theorem c9_scope_tree_is_tree (mm : ModuleMap) (calls : List Nat) (t : ScopeTree)
    (h : runScopeCalls mm calls = some t) : treeInvariant t = true :=
  inv_to_bool (runScopeCallsFrom_inv (inv_new mm) calls t h)

/-- The tree after scope calls `new_child_scope 0` then `new_child_scope 1`. -/
def c9Tree : ScopeTree :=
  { scopes := [{ valueSymbols := [], typeSymbols := [], parent := none, children := [1] },
               { valueSymbols := [], typeSymbols := [], parent := some 0, children := [2] },
               { valueSymbols := [], typeSymbols := [], parent := some 1, children := [] }]
    moduleMap := mmE
    nextTypeVar := 0
    nextFn := 0 }

/-- C9, witness: the theorem applied to the two-call run producing a
root, a program scope and a grandchild. -/
theorem c9_scope_tree_is_tree_witness :
    runScopeCalls mmE [0, 1] = some c9Tree ∧ treeInvariant c9Tree = true :=
  ⟨rfl, c9_scope_tree_is_tree mmE [0, 1] c9Tree rfl⟩

/-- The key a package import contributes to the generator's import map:
the final segment of its package name (`""` cannot occur for any
parsed import). -/
def lastSeg (imp : PackageImport) : String :=
  (imp.packageName.getLast?).getD ""

/-- The import path `generate_go` emits for a package import. -/
def goImportPath (imp : PackageImport) : String :=
  (String.intercalate "/" ("fygbuild" :: imp.packageName)).toLower

/-- Appending a single binding: the lookup misses iff it missed before
and the key differs. -/
theorem lookup_append_single_none_iff {α : Type} (im : List (String × α)) (k : String)
    (v : α) (s : String) :
    ((im ++ [(k, v)]).lookup s = none) ↔ (im.lookup s = none ∧ s ≠ k) := by
  rw [List.lookup_append]
  cases him : im.lookup s
  · simp only [Option.none_or]
    cases hbe : (s == k) with
    | true =>
      have hsk : s = k := by simpa using hbe
      simp [List.lookup, hbe, hsk]
    | false =>
      have hsk : ¬ s = k := by simpa using hbe
      simp [List.lookup, hbe, hsk]
  · simp

/-- The import loop of `generate_go`: it dies (duplicate-key panic)
exactly when some final segment repeats or is already mapped, and on
success appends one lowercased `fygbuild`-prefixed path per import, in
order. -/
theorem generateGoImportsLoop_spec :
    ∀ (imports : List PackageImport) (im : List (String × String)) (l : List String),
      (∀ imp ∈ imports, imp.packageName ≠ []) →
      ((generateGoImportsLoop imports im l = none ↔
        ¬ ((imports.map lastSeg).Nodup ∧
           ∀ s ∈ imports.map lastSeg, im.lookup s = none)) ∧
       (∀ r, generateGoImportsLoop imports im l = some r →
         r.2 = l ++ imports.map goImportPath)) := by
  intro imports
  induction imports with
  | nil =>
    intro im l _
    constructor
    · simp [generateGoImportsLoop]
    · intro r hr
      simp only [generateGoImportsLoop, Option.some.injEq] at hr
      subst hr
      simp
  | cons imp rest ih =>
    intro im l hne
    have himp : imp.packageName ≠ [] := hne imp (by simp)
    have hrest : ∀ i ∈ rest, i.packageName ≠ [] := fun i hi => hne i (by simp [hi])
    obtain ⟨seg, hseg⟩ : ∃ seg, imp.packageName.getLast? = some seg := by
      cases hgl : imp.packageName.getLast? with
      | none =>
        exact absurd (List.getLast?_eq_none_iff.mp hgl) himp
      | some seg => exact ⟨seg, rfl⟩
    have hlast : lastSeg imp = seg := by simp [lastSeg, hseg]
    have hpref : ("fygbuild" :: imp.packageName).getLast? = some seg := by
      cases hpn : imp.packageName with
      | nil => exact absurd hpn himp
      | cons q qs => rw [List.getLast?_cons_cons, ← hpn, hseg]
    have hstep : processGoImport im l imp
        = if (im.lookup seg).isSome then none
          else some (im ++ [(seg, seg.toLower)], l ++ [goImportPath imp]) := by
      simp only [processGoImport, hseg, hpref]
      rfl
    by_cases hlk : (im.lookup seg).isSome = true
    · have hloop : generateGoImportsLoop (imp :: rest) im l = none := by
        simp only [generateGoImportsLoop, hstep]
        rw [if_pos hlk]
      have him0 : im.lookup seg ≠ none := by
        intro hn; rw [hn] at hlk; cases hlk
      constructor
      · rw [hloop]
        simp only [true_iff]
        rintro ⟨_, hall⟩
        exact him0 (hall seg (by simp [hlast]))
      · intro r hr
        rw [hloop] at hr
        cases hr
    · have him0 : im.lookup seg = none := Option.not_isSome_iff_eq_none.mp hlk
      have hloop : generateGoImportsLoop (imp :: rest) im l
          = generateGoImportsLoop rest (im ++ [(seg, seg.toLower)])
              (l ++ [goImportPath imp]) := by
        simp only [generateGoImportsLoop, hstep]
        rw [if_neg hlk]
      obtain ⟨ih1, ih2⟩ := ih (im ++ [(seg, seg.toLower)]) (l ++ [goImportPath imp]) hrest
      constructor
      · rw [hloop, ih1]
        apply not_congr
        simp only [List.map_cons, hlast, List.nodup_cons, List.mem_cons, forall_eq_or_imp,
          him0, true_and, lookup_append_single_none_iff]
        constructor
        · rintro ⟨hnd, hall⟩
          refine ⟨⟨fun hm => (hall seg hm).2 rfl, hnd⟩, fun s hs => (hall s hs).1⟩
        · rintro ⟨⟨hnm, hnd⟩, hall⟩
          exact ⟨hnd, fun s hs => ⟨hall s hs, fun he => hnm (he ▸ hs)⟩⟩
      · intro r hr
        rw [hloop] at hr
        have h2 := ih2 r hr
        rw [h2]
        simp [hlast]

/-- C10: with the program scope present (as it is after binding), if
two imports share a final package-name segment then `generate_go` hits
the duplicate-key panic before emitting source, and exactly then; with
pairwise distinct final segments it succeeds and the emitted imports
block holds exactly one path per import, in order. -/
theorem c10_generate_go_imports (p : Program) (s : Nat) (hscope : p.scope = some s)
    (hne : ∀ imp ∈ p.imports, imp.packageName ≠ []) :
    (generateGoImports p = none ↔ ¬ (p.imports.map lastSeg).Nodup) ∧
    (∀ im l, generateGoImports p = some (im, l) → l = p.imports.map goImportPath) := by
  obtain ⟨hspec1, hspec2⟩ := generateGoImportsLoop_spec p.imports [] [] hne
  unfold generateGoImports
  rw [hscope]
  constructor
  · rw [hspec1]
    have hemp : ∀ s ∈ p.imports.map lastSeg,
        ([] : List (String × String)).lookup s = none := by
      intro s _; rfl
    constructor
    · intro h hnd; exact h ⟨hnd, hemp⟩
    · intro h hcon; exact h hcon.1
  · intro im l hl
    have h2 := hspec2 (im, l) hl
    simpa using h2

/-- A program importing `Foo.Bar` and `Baz`, with its scope populated. -/
def pC10 : Program :=
  { moduleDec := { name := ["Main"], exports := [] }
    imports := [{ packageName := ["Foo", "Bar"], aliasedName := none },
                { packageName := ["Baz"], aliasedName := none }]
    statements := []
    scope := some 0 }

/-- C10, witness: the theorem applied to `pC10`, whose two imports end
in the distinct segments `Bar` and `Baz`. -/
theorem c10_generate_go_imports_witness :
    pC10.scope = some 0 ∧
    (∀ imp ∈ pC10.imports, imp.packageName ≠ []) ∧
    ((generateGoImports pC10 = none ↔ ¬ (pC10.imports.map lastSeg).Nodup) ∧
     (∀ im l, generateGoImports pC10 = some (im, l) → l = pC10.imports.map goImportPath)) :=
  ⟨rfl, by simp [pC10],
    c10_generate_go_imports pC10 0 rfl (by simp [pC10])⟩

end Fyg
